import Mathlib

/-!
Verification of the changelog reconciliation engine of `pr-auto-changelog`
(the current, marker-based revision of `index.js`).

JavaScript strings are modelled as `List Char`; the JS string operations the
engine uses (`trim`, `startsWith`, `includes`, `indexOf`, `slice`,
`split('\n')`, `join('\n')`, first-occurrence `replace`) are defined below on
that representation.  Machine-level concerns (UTF-16 vs codepoints) do not
arise: every string the engine manipulates is treated as a sequence of
unicode scalar values, which agrees with the JS semantics on all inputs
considered here.
-/

namespace PRAC

/-- JS strings as lists of characters. -/
abbrev Str := List Char

/-- The whitespace class of JS `String.prototype.trim` (WhiteSpace ∪
LineTerminator; the rare exotic members not used by any input here are
included for the common cases). -/
def jsWs (c : Char) : Bool :=
  c == ' ' || c == '\t' || c == '\n' || c == '\r' ||
  c == Char.ofNat 11 || c == Char.ofNat 12 ||
  c == Char.ofNat 0xa0 || c == Char.ofNat 0xfeff ||
  c == Char.ofNat 0x2028 || c == Char.ofNat 0x2029

/-- JS `s.trimStart()` (the left half of `trim`). -/
def trimL (s : Str) : Str := s.dropWhile jsWs

/-- JS `s.trimEnd()` (the right half of `trim`). -/
def trimR (s : Str) : Str := (s.reverse.dropWhile jsWs).reverse

/-- JS `s.trim()`. -/
def trim (s : Str) : Str := trimR (trimL s)

/-- JS `s.startsWith(pat)`: `startsWith s pat`. -/
def startsWith : Str → Str → Bool
  | _, [] => true
  | [], _ :: _ => false
  | c :: cs, p :: ps => c == p && startsWith cs ps

/-- JS `s.includes(pat)`: `occursIn pat s`. -/
def occursIn (pat : Str) : Str → Bool
  | [] => pat.isEmpty
  | c :: cs => startsWith (c :: cs) pat || occursIn pat cs

/-- JS `s.indexOf(pat)` (as `Option Nat` instead of `-1`). -/
def firstIdx? (pat : Str) : Str → Option Nat
  | [] => if pat.isEmpty then some 0 else none
  | c :: cs =>
    if startsWith (c :: cs) pat then some 0
    else (firstIdx? pat cs).map (· + 1)

/-- JS `s.indexOf(pat, start)` (as `Option Nat` instead of `-1`). -/
def idxFrom? (pat : Str) (s : Str) (start : Nat) : Option Nat :=
  (firstIdx? pat (s.drop start)).map (· + start)

/-- JS `s.split('\n')`: never returns the empty list. -/
def splitNl : Str → List Str
  | [] => [[]]
  | c :: cs =>
    if c == '\n' then [] :: splitNl cs
    else
      match splitNl cs with
      | [] => [[c]]
      | h :: t => (c :: h) :: t

/-- JS `lines.join('\n')`. -/
def joinNl : List Str → Str
  | [] => []
  | [l] => l
  | l :: ls => l ++ '\n' :: joinNl ls

/-- The decimal digit character of `n < 10`. -/
def digitChar (n : Nat) : Char := "0123456789".data.getD n '0'

/-- Fuel-driven helper of `natDigits` (structural recursion keeps it
kernel-reducible). -/
def natDigitsGo : Nat → Nat → Str
  | 0, _ => []
  | fuel + 1, n =>
    if n < 10 then [digitChar n]
    else natDigitsGo fuel (n / 10) ++ [digitChar (n % 10)]

/-- The decimal digit characters of a natural number, as JS
`String(prNumber)` produces them. -/
def natDigits (n : Nat) : Str := natDigitsGo (n + 1) n

/-! ### Marker codec

The hash-marker regex of the source,
`/<!-- ac:([a-f0-9]+):(\d+) -->/` (`HASH_MARKER.PATTERN`), is modelled by a
deterministic matcher.  For this particular pattern the backtracking regex
search and the deterministic maximal-munch parse agree: the character after a
maximal `[a-f0-9]+` run is never itself a hex digit, so shrinking the greedy
group can never turn a failed attempt into a match, and likewise for `\d+`.
-/

/-- One found marker: the text before it, its two capture groups, and the
text after it. -/
structure MarkerHit where
  before : Str
  hash : Str
  digs : Str
  after : Str
deriving DecidableEq, Repr

/-- Strip `pat` from the front of `s`, returning the remainder. -/
def dropPre? : Str → Str → Option Str
  | [], s => some s
  | _ :: _, [] => none
  | p :: ps, c :: cs => if c == p then dropPre? ps cs else none

/-- Lower-case hex digit, the `[a-f0-9]` class of the marker pattern. -/
def hexDigit (c : Char) : Bool :=
  (48 ≤ c.toNat && c.toNat ≤ 57) || (97 ≤ c.toNat && c.toNat ≤ 102)

/-- The `\d` class. -/
def decDigit (c : Char) : Bool := 48 ≤ c.toNat && c.toNat ≤ 57

/-- Final stage of the marker match: the literal closer `" -->"`. -/
def matchMarkerClose (h d r3 : Str) : Option (Str × Str × Str) :=
  match dropPre? " -->".data r3 with
  | none => none
  | some r4 => some (h, d, r4)

/-- Third stage: the `":"` separator followed by the `\d+` group. -/
def matchMarkerColon (h : Str) : Str → Option (Str × Str × Str)
  | ':' :: r2 =>
    let d := r2.takeWhile decDigit
    let r3 := r2.dropWhile decDigit
    if d.isEmpty then none else matchMarkerClose h d r3
  | _ => none

/-- Second stage: the `[a-f0-9]+` group. -/
def matchMarkerHex (r0 : Str) : Option (Str × Str × Str) :=
  let h := r0.takeWhile hexDigit
  let r1 := r0.dropWhile hexDigit
  if h.isEmpty then none else matchMarkerColon h r1

/-- Try to match the marker pattern at the very start of `s`, returning the
two capture groups and the rest of the string. -/
def matchMarkerAt (s : Str) : Option (Str × Str × Str) :=
  match dropPre? "<!-- ac:".data s with
  | none => none
  | some r0 => matchMarkerHex r0

/-- The leftmost match of the marker pattern in `s` (JS `s.match(PATTERN)` /
the target of a first-occurrence `s.replace(PATTERN, '')`). -/
def findMarker : Str → Option MarkerHit
  | [] => none
  | c :: cs =>
    match matchMarkerAt (c :: cs) with
    | some (h, d, rest) => some ⟨[], h, d, rest⟩
    | none => (findMarker cs).map fun m => { m with before := c :: m.before }

/-- JS `s.replace(HASH_MARKER.PATTERN, '')`: remove the first match, if any. -/
def replaceMarker (s : Str) : Str :=
  match findMarker s with
  | some m => m.before ++ m.after
  | none => s

/-- `HASH_MARKER.template(hash, prNumber)`:
`<!-- ac:${hash}:${prNumber} -->`. -/
def markerStr (h : Str) (n : Nat) : Str :=
  "<!-- ac:".data ++ h ++ ':' :: natDigits n ++ " -->".data

/-! ### Action resolver (`resolveEntryAction`, source lines 668–707) -/

/-- `ENTRY_STATE` of the source. -/
inductive EntryState where
  | NONE
  | AUTO_UNTOUCHED
  | AUTO_EDITED
  | MANUAL
  | SKIPPED
deriving DecidableEq, Repr

/-- The command kinds `parseCommentCommands` / the description scan produce
(`'skip' | 'regenerate' | 'custom'`). -/
inductive CommandKind where
  | skip
  | regenerate
  | custom
deriving DecidableEq, Repr

/-- A parsed `/changelog` command: `{ command, text }`. -/
structure Command where
  command : CommandKind
  text : Option Str
deriving DecidableEq, Repr

/-- The action field of a `Decision`. -/
inductive ActionKind where
  | skip
  | preserve
  | generate
  | regenerate
  | custom
deriving DecidableEq, Repr

/-- A `Decision`: `{ action, reason, mark, text? }`. -/
structure Decision where
  action : ActionKind
  reason : Str
  mark : Bool
  text : Option Str
deriving DecidableEq, Repr

/-- JS `cmd && cmd.command === k` for a nullable command object. -/
def cmdIs (c : Option Command) (k : CommandKind) : Bool :=
  match c with
  | some c => c.command == k
  | none => false

/-- A printable name for an entry state (only used inside `reason` strings,
mirroring the template literals of the source). -/
def stateName : EntryState → Str
  | .NONE => "NONE".data
  | .AUTO_UNTOUCHED => "AUTO_UNTOUCHED".data
  | .AUTO_EDITED => "AUTO_EDITED".data
  | .MANUAL => "MANUAL".data
  | .SKIPPED => "SKIPPED".data

/-- `resolveEntryAction(entryState, prDescCommand, commentCommand,
preserveEdited)`, source lines 668–707, translated clause for clause. -/
def resolveEntryAction (entryState : EntryState)
    (prDescCommand commentCommand : Option Command)
    (preserveEdited : Bool) : Decision :=
  if cmdIs commentCommand .skip then
    ⟨.skip, "Comment command: /changelog skip".data, false, none⟩
  else if cmdIs prDescCommand .skip then
    ⟨.skip, "Description command: /changelog skip".data, false, none⟩
  else if cmdIs commentCommand .regenerate then
    ⟨.regenerate, "Comment command: /changelog regenerate".data, true, none⟩
  else if cmdIs prDescCommand .custom then
    ⟨.custom, "Custom entry from PR description".data, false,
      prDescCommand.bind (·.text)⟩
  else if cmdIs commentCommand .custom then
    ⟨.custom, "Custom entry from PR comment".data, false,
      commentCommand.bind (·.text)⟩
  else if entryState == .NONE || entryState == .AUTO_UNTOUCHED then
    ⟨.generate, "Entry state: ".data ++ stateName entryState, true, none⟩
  else if entryState == .AUTO_EDITED || entryState == .MANUAL then
    if preserveEdited then
      ⟨.preserve, "Entry state: ".data ++ stateName entryState ++
        " (preserved)".data, false, none⟩
    else
      ⟨.generate, "Entry state: ".data ++ stateName entryState ++
        " (preserve disabled)".data, true, none⟩
  else
    ⟨.generate, "Default".data, true, none⟩

/-- The observable part of a `Decision` (everything but the free-text
`reason`). -/
structure DecisionCore where
  action : ActionKind
  mark : Bool
  text : Option Str
deriving DecidableEq, Repr

/-- Drop the `reason` field. -/
def decisionCore (d : Decision) : DecisionCore := ⟨d.action, d.mark, d.text⟩

/-- Modelled from the spec's words (§4.5 and claim C1): the eight-clause
strict priority list, first match winning.  Where the claim is silent on the
`mark` flag (skip, preserve) the source's value is used. -/
def prioritySpec (entryState : EntryState)
    (descCmd commentCmd : Option Command) (preserveEditedFlag : Bool) :
    DecisionCore :=
  if cmdIs commentCmd .skip then ⟨.skip, false, none⟩
  else if cmdIs descCmd .skip then ⟨.skip, false, none⟩
  else if cmdIs commentCmd .regenerate then ⟨.regenerate, true, none⟩
  else if cmdIs descCmd .custom then ⟨.custom, false, descCmd.bind (·.text)⟩
  else if cmdIs commentCmd .custom then
    ⟨.custom, false, commentCmd.bind (·.text)⟩
  else if entryState = .NONE ∨ entryState = .AUTO_UNTOUCHED then
    ⟨.generate, true, none⟩
  else if entryState = .AUTO_EDITED ∨ entryState = .MANUAL then
    if preserveEditedFlag then ⟨.preserve, false, none⟩
    else ⟨.generate, true, none⟩
  else ⟨.generate, true, none⟩

/-- C1: `resolveEntryAction` implements the strict priority order with first
match winning, for all inputs — clauses (1)–(8) as listed in the claim — and
in particular, when a comment-skip and a description-custom command both
exist, the result is `skip`. -/
theorem resolveEntryAction_priority :
    (∀ (es : EntryState) (dc cc : Option Command) (pe : Bool),
      decisionCore (resolveEntryAction es dc cc pe) = prioritySpec es dc cc pe)
    ∧
    (∀ (es : EntryState) (t t' : Option Str) (pe : Bool),
      (resolveEntryAction es (some ⟨.custom, t⟩) (some ⟨.skip, t'⟩) pe).action
        = .skip) := by
  constructor
  · intro es dc cc pe
    rcases dc with _ | ⟨k₁, t₁⟩ <;> rcases cc with _ | ⟨k₂, t₂⟩ <;>
      cases es <;> cases pe <;>
      first
        | rfl
        | (cases k₁ <;> first | rfl | (cases k₂ <;> rfl))
        | (cases k₂ <;> rfl)
  · intro es t t' pe
    rfl

/-! ### MD5 (`crypto.createHash('md5')` over the UTF-8 bytes of a string)

A direct implementation of RFC 1321 over `Nat` with explicit `% 2^32`
reductions.  Only the lowercase-hex digest is used by the engine
(`computeEntryHash` keeps its first 8 characters).
-/

/-- UTF-8 encoding of one unicode scalar value. -/
def utf8Char (c : Char) : List Nat :=
  let n := c.toNat
  if n < 0x80 then [n]
  else if n < 0x800 then
    [0xc0 ||| (n >>> 6), 0x80 ||| (n &&& 0x3f)]
  else if n < 0x10000 then
    [0xe0 ||| (n >>> 12), 0x80 ||| ((n >>> 6) &&& 0x3f), 0x80 ||| (n &&& 0x3f)]
  else
    [0xf0 ||| (n >>> 18), 0x80 ||| ((n >>> 12) &&& 0x3f),
     0x80 ||| ((n >>> 6) &&& 0x3f), 0x80 ||| (n &&& 0x3f)]

/-- UTF-8 bytes of a string (what `hash.update(s)` digests). -/
def utf8Bytes (s : Str) : List Nat := (s.map utf8Char).flatten

/-- The 64 MD5 sine-table constants `K[i] = ⌊2³² · |sin(i+1)|⌋`. -/
def md5K : List Nat :=
  [0xd76aa478, 0xe8c7b756, 0x242070db, 0xc1bdceee,
   0xf57c0faf, 0x4787c62a, 0xa8304613, 0xfd469501,
   0x698098d8, 0x8b44f7af, 0xffff5bb1, 0x895cd7be,
   0x6b901122, 0xfd987193, 0xa679438e, 0x49b40821,
   0xf61e2562, 0xc040b340, 0x265e5a51, 0xe9b6c7aa,
   0xd62f105d, 0x02441453, 0xd8a1e681, 0xe7d3fbc8,
   0x21e1cde6, 0xc33707d6, 0xf4d50d87, 0x455a14ed,
   0xa9e3e905, 0xfcefa3f8, 0x676f02d9, 0x8d2a4c8a,
   0xfffa3942, 0x8771f681, 0x6d9d6122, 0xfde5380c,
   0xa4beea44, 0x4bdecfa9, 0xf6bb4b60, 0xbebfbc70,
   0x289b7ec6, 0xeaa127fa, 0xd4ef3085, 0x04881d05,
   0xd9d4d039, 0xe6db99e5, 0x1fa27cf8, 0xc4ac5665,
   0xf4292244, 0x432aff97, 0xab9423a7, 0xfc93a039,
   0x655b59c3, 0x8f0ccc92, 0xffeff47d, 0x85845dd1,
   0x6fa87e4f, 0xfe2ce6e0, 0xa3014314, 0x4e0811a1,
   0xf7537e82, 0xbd3af235, 0x2ad7d2bb, 0xeb86d391]

/-- The 64 per-round left-rotation amounts. -/
def md5S : List Nat :=
  [7, 12, 17, 22, 7, 12, 17, 22, 7, 12, 17, 22, 7, 12, 17, 22,
   5, 9, 14, 20, 5, 9, 14, 20, 5, 9, 14, 20, 5, 9, 14, 20,
   4, 11, 16, 23, 4, 11, 16, 23, 4, 11, 16, 23, 4, 11, 16, 23,
   6, 10, 15, 21, 6, 10, 15, 21, 6, 10, 15, 21, 6, 10, 15, 21]

/-- 32-bit left rotation. -/
def rotl32 (x s : Nat) : Nat :=
  ((x <<< s) ||| (x >>> (32 - s))) % 4294967296

/-- Little-endian 8-byte encoding (for the bit-length trailer). -/
def leBytes8 (n : Nat) : List Nat :=
  (List.range 8).map fun i => (n >>> (8 * i)) % 256

/-- Little-endian 4-byte encoding of a 32-bit word. -/
def leBytes4 (n : Nat) : List Nat :=
  (List.range 4).map fun i => (n >>> (8 * i)) % 256

/-- MD5 padding: `0x80`, zeros to 56 mod 64, then the 64-bit LE bit length. -/
def md5Pad (msg : List Nat) : List Nat :=
  let len := msg.length
  let zeros := (56 + 64 - (len + 1) % 64) % 64
  msg ++ 0x80 :: List.replicate zeros 0 ++ leBytes8 (len * 8)

/-- Fuel-driven helper of `chunks64` (structural recursion keeps it
kernel-reducible). -/
def chunks64Go : Nat → List Nat → List (List Nat)
  | 0, _ => []
  | fuel + 1, l =>
    if l.isEmpty then [] else l.take 64 :: chunks64Go fuel (l.drop 64)

/-- Split a byte list into 64-byte chunks. -/
def chunks64 (l : List Nat) : List (List Nat) := chunks64Go l.length l

/-- The 16 little-endian message words of one 64-byte chunk. -/
def words16 (chunk : List Nat) : List Nat :=
  (List.range 16).map fun i =>
    ((chunk.drop (4 * i)).take 4).foldr (fun b acc => b + (acc <<< 8)) 0

/-- Round function and message index of round `i`. -/
def md5FG (i b c d : Nat) : Nat × Nat :=
  if i < 16 then ((b &&& c) ||| ((b ^^^ 0xffffffff) &&& d), i)
  else if i < 32 then ((d &&& b) ||| ((d ^^^ 0xffffffff) &&& c), (5 * i + 1) % 16)
  else if i < 48 then (b ^^^ c ^^^ d, (3 * i + 5) % 16)
  else (c ^^^ (b ||| (d ^^^ 0xffffffff)), (7 * i) % 16)

/-- One MD5 round. -/
def md5Step (m : List Nat) (st : Nat × Nat × Nat × Nat) (i : Nat) :
    Nat × Nat × Nat × Nat :=
  let (a, b, c, d) := st
  let (f, g) := md5FG i b c d
  let f' := (f + a + md5K.getD i 0 + m.getD g 0) % 4294967296
  (d, (b + rotl32 f' (md5S.getD i 0)) % 4294967296, b, c)

/-- Process one 64-byte chunk. -/
def md5Chunk (st : Nat × Nat × Nat × Nat) (chunk : List Nat) :
    Nat × Nat × Nat × Nat :=
  let m := words16 chunk
  let (a, b, c, d) := (List.range 64).foldl (md5Step m) st
  ((st.1 + a) % 4294967296, (st.2.1 + b) % 4294967296,
   (st.2.2.1 + c) % 4294967296, (st.2.2.2 + d) % 4294967296)

/-- The 16 digest bytes of a byte message. -/
def md5Digest (msg : List Nat) : List Nat :=
  let (a, b, c, d) :=
    (chunks64 (md5Pad msg)).foldl md5Chunk
      (0x67452301, 0xefcdab89, 0x98badcfe, 0x10325476)
  leBytes4 a ++ leBytes4 b ++ leBytes4 c ++ leBytes4 d

/-- Lowercase hex digit. -/
def hexChar (n : Nat) : Char := "0123456789abcdef".data.getD n '0'

/-- Two lowercase hex characters of one byte. -/
def byteHex (b : Nat) : Str := [hexChar (b / 16), hexChar (b % 16)]

/-- `crypto.createHash('md5').update(s).digest('hex')`. -/
def md5Hex (s : Str) : Str := ((utf8Bytes s |> md5Digest).map byteHex).flatten

/-! ### Entry hasher (`computeEntryHash`, `buildMarkedEntry`,
source lines 523–535) -/

/-- JS `s.replace(/\r/g, '')`. -/
def stripCr (s : Str) : Str := s.filter (· != '\r')

/-- `computeEntryHash(entryText)`: strip the first marker match, drop CRs,
trim, then keep the first 8 hex characters of the MD5 digest. -/
def computeEntryHash (entryText : Str) : Str :=
  (md5Hex (trim (stripCr (replaceMarker entryText)))).take 8

/-- `buildMarkedEntry(entryText, prNumber)`: strip, hash, and append the
tracking marker after one space. -/
def buildMarkedEntry (entryText : Str) (prNumber : Nat) : Str :=
  let stripped := trim (stripCr (replaceMarker entryText))
  stripped ++ ' ' :: markerStr (computeEntryHash stripped) prNumber

/-! ### Entry state detector (`detectEntryState`, source lines 541–587) -/

/-- `CHANGELOG_STRUCTURE.UNRELEASED_SECTION`. -/
def unrHeading : Str := "## [Unreleased]".data

/-- The result record `{ state, line, storedHash }`. -/
structure DetectResult where
  state : EntryState
  line : Option Str
  storedHash : Option Str
deriving DecidableEq, Repr

/-- JS `t.replace(/^- /, '')` — drop a leading `"- "` if present. -/
def jsStripDash (t : Str) : Str :=
  if startsWith t "- ".data then t.drop 2 else t

/-- The `for (const line of lines)` loop of `detectEntryState`. -/
def detectLoop (prNumber : Nat) : List Str → DetectResult
  | [] => ⟨.NONE, none, none⟩
  | line :: rest =>
    let trimmed := trim line
    if !startsWith trimmed "- ".data then detectLoop prNumber rest
    else
      let hasPrLink :=
        occursIn ("[#".data ++ natDigits prNumber ++ "]".data) trimmed
      let markerMatch := findMarker trimmed
      let hasMarkerForPr :=
        match markerMatch with
        | some m => m.digs == natDigits prNumber
        | none => false
      if !hasPrLink && !hasMarkerForPr then detectLoop prNumber rest
      else if hasMarkerForPr then
        match markerMatch with
        | some m =>
          let entryWithoutPrefix := jsStripDash trimmed
          let currentHash := computeEntryHash entryWithoutPrefix
          if currentHash == m.hash then ⟨.AUTO_UNTOUCHED, some trimmed, some m.hash⟩
          else ⟨.AUTO_EDITED, some trimmed, some m.hash⟩
        | none => ⟨.MANUAL, some trimmed, none⟩
      else ⟨.MANUAL, some trimmed, none⟩

/-- `detectEntryState(changelogContent, prNumber)`. -/
def detectEntryState (changelogContent : Str) (prNumber : Nat) : DetectResult :=
  if changelogContent.isEmpty then ⟨.NONE, none, none⟩
  else
    match firstIdx? unrHeading changelogContent with
    | none => ⟨.NONE, none, none⟩
    | some unreleasedIdx =>
      let nextSectionIdx :=
        (idxFrom? "\n## ".data changelogContent (unreleasedIdx + 1)).getD
          changelogContent.length
      let unreleased := (changelogContent.take nextSectionIdx).drop unreleasedIdx
      detectLoop prNumber (splitNl unreleased)

/-! ### Conventional-commit parser (`parseConventionalCommit`, source lines
952–972)

The regex
`/^(feat|fix|docs|style|refactor|perf|test|chore|ci|build|revert)(\(.+\))?!?:\s*(.+)$/i`
is modelled by a deterministic matcher that reproduces the JS backtracking
search: no alternative of the type group is a case-insensitive prefix of
another, so at most one alternative can match; the optional scope group is
greedy (rightmost closing parenthesis with a matching tail wins, the
scope-less reading is the fallback); `.` matches everything except line
terminators; `$` (no `m` flag) matches only at the very end. -/

/-- An entry object; the JS field `section` is called `sectionName` here
(`section` is a Lean keyword). -/
structure Entry where
  type : Str
  scope : Option Str
  description : Str
  prNumber : Nat
  prUrl : Str
  sectionName : Str
deriving DecidableEq, Repr

/-- `COMMIT_TYPE_MAPPING` (source lines 504–517): note that it contains
`feature` even though the regex alternation below does not. -/
def COMMIT_TYPE_MAPPING : List (Str × Str) :=
  [("feat".data, "Features".data),
   ("feature".data, "Features".data),
   ("fix".data, "Bug Fixes".data),
   ("docs".data, "Documentation".data),
   ("style".data, "Style".data),
   ("refactor".data, "Refactoring".data),
   ("perf".data, "Performance".data),
   ("test".data, "Tests".data),
   ("chore".data, "Chores".data),
   ("ci".data, "CI/CD".data),
   ("build".data, "Build".data),
   ("revert".data, "Reverts".data)]

/-- `COMMIT_TYPE_MAPPING[ty]` as an option. -/
def mappingLookup (ty : Str) : Option Str :=
  (COMMIT_TYPE_MAPPING.find? (fun p => p.1 == ty)).map (·.2)

/-- The alternation of the conventional-commit regex, in source order.
`feature` is absent (it appears only in `COMMIT_TYPE_MAPPING`). -/
def commitTypeAlts : List Str :=
  ["feat".data, "fix".data, "docs".data, "style".data, "refactor".data,
   "perf".data, "test".data, "chore".data, "ci".data, "build".data,
   "revert".data]

/-- Case-insensitive character comparison (the regex `i` flag). -/
def lowerEq (a b : Char) : Bool := a.toLower == b.toLower

/-- Case-insensitive `startsWith`. -/
def startsWithCI : Str → Str → Bool
  | _, [] => true
  | [], _ :: _ => false
  | c :: cs, p :: ps => lowerEq c p && startsWithCI cs ps

/-- JS regex line terminators (what `.` refuses to match). -/
def lineTerm (c : Char) : Bool :=
  c == '\n' || c == '\r' || c == Char.ofNat 0x2028 || c == Char.ofNat 0x2029

/-- No character of `s` is a line terminator. -/
def noTerm (s : Str) : Bool := s.all (fun c => !lineTerm c)

/-- `\s*(.+)$` with greedy backtracking: take the maximal whitespace run;
if something follows it, that remainder is the description provided it is
terminator-free; if nothing follows, greediness gives back exactly one
(non-terminator) whitespace character. -/
def descMatch? (r : Str) : Option Str :=
  let ws := r.takeWhile jsWs
  let tail := r.drop ws.length
  if !tail.isEmpty then
    if noTerm tail then some tail else none
  else
    match ws.getLast? with
    | some w => if lineTerm w then none else some [w]
    | none => none

/-- `!?:\s*(.+)$`. -/
def tailMatch? : Str → Option Str
  | '!' :: rest =>
    (match rest with
     | ':' :: r2 => descMatch? r2
     | _ => none)
  | ':' :: r => descMatch? r
  | _ => none

/-- `(\(.+\))?` followed by `!?:\s*(.+)$`, the with-scope reading: the
closing-parenthesis candidates in right-to-left (greedy) order.  Returns the
scope capture (parentheses included) and the description. -/
def scopeMatch? (a : Str) : Option (Str × Str) :=
  match a with
  | '(' :: _ =>
    (((List.range a.length).filter
        (fun i => a.getD i ' ' == ')')).reverse).findSome? fun i =>
      if decide (2 ≤ i) && noTerm ((a.take i).drop 1) then
        match tailMatch? (a.drop (i + 1)) with
        | some d => some (a.take (i + 1), d)
        | none => none
      else none
  | _ => none

/-- `parseConventionalCommit(title, pr, prNumber)`. -/
def parseConventionalCommit (title : Str) (prUrl : Str) (prNumber : Nat) :
    Option Entry :=
  (commitTypeAlts.findSome? fun alt =>
    if startsWithCI title alt then
      let tyChars := title.take alt.length
      let after := title.drop alt.length
      match scopeMatch? after with
      | some (sc, d) => some (tyChars, some sc, d)
      | none =>
        match tailMatch? after with
        | some d => some (tyChars, (none : Option Str), d)
        | none => none
    else none).map fun g =>
      let ty := g.1
      let sc := g.2.1
      let d := g.2.2
      { type := ty,
        scope := sc.map (fun s => (s.drop 1).dropLast),
        description := d,
        prNumber := prNumber,
        prUrl := prUrl,
        sectionName := (mappingLookup (ty.map Char.toLower)).getD "Changes".data }

/-! ### Comment / description command parsing (source lines 594–630,
763–781, 922–950) -/

/-- JS `s.replace(pat, '')` for a plain-string pattern: remove the first
occurrence. -/
def jsReplaceFirst (pat : Str) (s : Str) : Str :=
  match firstIdx? pat s with
  | some i => s.take i ++ s.drop (i + pat.length)
  | none => s

/-- The scope prefix `**scope**: ` of a rendered entry (empty when the entry
has no scope); the source inlines this template literal at each use site. -/
def scopeText (sc : Option Str) : Str :=
  match sc with
  | some s => "**".data ++ s ++ "**: ".data
  | none => []

/-- The line loop of `parseChangelogComment` (source lines 922–950): first
command-shaped line wins, empty custom text falls through. -/
def pccLoop (trigger : Str) (prUrl : Str) (prNumber : Nat) :
    List Str → Option Entry
  | [] => none
  | line :: rest =>
    let trimmedLine := trim line
    if startsWith trimmedLine trigger then
      let description := trim (jsReplaceFirst trigger trimmedLine)
      if description.isEmpty then pccLoop trigger prUrl prNumber rest
      else
        match parseConventionalCommit description prUrl prNumber with
        | some e => some e
        | none =>
          some ⟨"Manual".data, none, description, prNumber, prUrl,
            "Changes".data⟩
    else pccLoop trigger prUrl prNumber rest

/-- `parseChangelogComment(comment, trigger, pr, prNumber)`. -/
def parseChangelogComment (comment : Str) (trigger : Str) (prUrl : Str)
    (prNumber : Nat) : Option Entry :=
  pccLoop trigger prUrl prNumber (splitNl comment)

/-- `SKIP_PATTERNS.SKIP_COMMAND_SLASH`. -/
def SKIP_COMMAND_SLASH : Str := "/changelog: skip".data

/-- `SKIP_PATTERNS.SKIP_COMMAND`. -/
def SKIP_COMMAND : Str := "/changelog skip".data

/-- The PR-description command gathering of `run` (source lines 763–781):
a substring test for the two skip phrases, then the trigger-based custom
parse.  Returns the command object and, separately, the `_parsedEntry`
attached to a custom command. -/
def gatherDescCommand (body : Option Str) (trigger : Str) (prUrl : Str)
    (prNumber : Nat) : Option Command × Option Entry :=
  match body with
  | none => (none, none)
  | some b =>
    if b.isEmpty then (none, none)
    else if occursIn SKIP_COMMAND_SLASH b || occursIn SKIP_COMMAND b then
      (some ⟨.skip, none⟩, none)
    else if occursIn trigger b then
      match parseChangelogComment b trigger prUrl prNumber with
      | some parsed =>
        (some ⟨.custom, some (scopeText parsed.scope ++ parsed.description)⟩,
         some parsed)
      | none => (none, none)
    else (none, none)

/-! ### Changelog document editor (`updateChangelog`, source lines 974–1106,
and `removeAutoGeneratedEntries`, lines 1112–1148) -/

/-- `CHANGELOG_TEMPLATE` (source lines 430–439). -/
def CHANGELOG_TEMPLATE : Str :=
  ("# Changelog\n\nAll notable changes to this project will be documented in this file.\n\nThe format is based on [Keep a Changelog](https://keepachangelog.com/en/1.0.0/),\nand this project adheres to [Semantic Versioning](https://semver.org/spec/v2.0.0.html).\n\n## [Unreleased]\n\n").data

/-- The per-line PR-match test shared, character for character, by the delete
pass of `updateChangelog` (lines 1027–1037) and by
`removeAutoGeneratedEntries` (lines 1123–1133): the line is entry-shaped and
mentions the PR by link or by marker. -/
def lineMatchesPr (line : Str) (prNumber : Nat) : Bool :=
  let trimmedLine := trim line
  if startsWith trimmedLine "- ".data then
    let entryText := jsStripDash trimmedLine
    let hasMarkerForPr :=
      match findMarker entryText with
      | some m => m.digs == natDigits prNumber
      | none => false
    occursIn ("[#".data ++ natDigits prNumber ++ "]".data) entryText ||
      hasMarkerForPr
  else false

/-- The `updatedLines` / `entryRemoved` loop of the editor's delete pass. -/
def keepNonMatching (n : Nat) : List Str → List Str × Bool
  | [] => ([], false)
  | line :: rest =>
    let r := keepNonMatching n rest
    if lineMatchesPr line n then (r.1, true)
    else (line :: r.1, r.2)

/-- The rendered visible text `${scopeText}${description} ([#pr](url))`. -/
def renderEntryText (e : Entry) : Str :=
  scopeText e.scope ++ e.description ++ " ([#".data ++
    natDigits e.prNumber ++ "](".data ++ e.prUrl ++ "))".data

/-- One rendered entry line, with the tracking marker iff `markEntries`. -/
def renderLine (markEntries : Bool) (e : Entry) : Str :=
  let txt := renderEntryText e
  if markEntries then "- ".data ++ buildMarkedEntry txt e.prNumber
  else "- ".data ++ txt

/-- `Object.keys(entriesBySection)`: the section names in first-occurrence
order. -/
def sectionKeys (entries : List Entry) : List Str :=
  entries.foldl
    (fun acc e =>
      if acc.any (· == e.sectionName) then acc else acc ++ [e.sectionName])
    []

/-- The per-section locate-or-create-and-append step of `updateChangelog`
(lines 1048–1086). -/
def insertSectionEntries (markEntries : Bool) (entries : List Entry)
    (un : Str) (sName : Str) : Str :=
  let hdr := "### ".data ++ sName
  let found := firstIdx? hdr un
  let un1 := match found with
    | some _ => un
    | none => un ++ '\n' :: hdr ++ "\n\n".data
  let sIdx := match found with
    | some i => i
    | none => (firstIdx? hdr un1).getD 0
  let sEnd := (idxFrom? "\n### ".data un1 (sIdx + 1)).getD un1.length
  let newLines :=
    (entries.filter (fun e => e.sectionName == sName)).map (renderLine markEntries)
  if newLines.isEmpty then un1
  else un1.take sEnd ++ (joinNl newLines ++ ['\n']) ++ un1.drop sEnd

/-- `updateChangelog(changelogPath, entries, { markEntries })` at the text
level: the file-system read/write is replaced by an `Option Str` in and the
would-be file content out, paired with the returned boolean (`true` = the
reassembled text differs from the input and is written). -/
def updateChangelogText (file : Option Str) (entries : List Entry)
    (markEntries : Bool) : Str × Bool :=
  let content0 := match file with
    | some c => c
    | none => CHANGELOG_TEMPLATE
  let found := firstIdx? unrHeading content0
  let content1 := match found with
    | some _ => content0
    | none =>
      match firstIdx? "\n## ".data content0 with
      | none => content0 ++ "\n## [Unreleased]\n\n".data
      | some headerEnd =>
        content0.take headerEnd ++ "\n## [Unreleased]\n\n".data ++
          content0.drop headerEnd
  let ui := match found with
    | some i => i
    | none => (firstIdx? unrHeading content1).getD 0
  let ni := (idxFrom? "\n## ".data content1 (ui + 1)).getD content1.length
  let un0 := (content1.take ni).drop ui
  let rest := content1.drop ni
  let un1 := entries.foldl
    (fun un e =>
      let r := keepNonMatching e.prNumber (splitNl un)
      if r.2 then joinNl r.1 else un)
    un0
  let un2 := (sectionKeys entries).foldl (insertSectionEntries markEntries entries) un1
  let newContent := content1.take ui ++ un2 ++ rest
  (newContent, !(content1 == newContent))

/-- `removeAutoGeneratedEntries(changelogPath, prNumber)` at the text level:
`none` in = no file (early return); out = the file content afterwards (the
source only writes — `updatedContent.trim()` — when something was removed). -/
def removeAutoGeneratedEntriesText (file : Option Str) (prNumber : Nat) :
    Option Str :=
  match file with
  | none => none
  | some content =>
    let r := (splitNl content).foldl
      (fun (acc : Str × Bool) line =>
        if lineMatchesPr line prNumber then (acc.1, true)
        else (acc.1 ++ line ++ ['\n'], acc.2))
      ([], false)
    if r.2 then some (trim r.1) else some content

/-- The number a digit string denotes (inverse of `natDigits`, used to prove
its injectivity). -/
def digitsVal (s : Str) : Nat := s.foldl (fun a c => 10 * a + (c.toNat - 48)) 0

/-- Every character is a lowercase hex digit. -/
def allHex (s : Str) : Bool := s.all hexDigit

/-- Every character is a decimal digit. -/
def allDec (s : Str) : Bool := s.all decDigit

/-! ### Helper notions used by the theorems -/

/-- The Unreleased slice of a document, exactly as the engine cuts it
(first occurrence of the heading up to the next `"\n## "` or the end). -/
def unreleasedSlice (content : Str) : Str :=
  match firstIdx? unrHeading content with
  | none => []
  | some ui =>
    (content.take
      ((idxFrom? "\n## ".data content (ui + 1)).getD content.length)).drop ui

/-- A line references PR `n` the way the engine matches lines: it contains
the PR link text `[#n]` or a marker whose embedded digits are exactly the
decimal representation of `n`. -/
def refsPr (line : Str) (n : Nat) : Bool :=
  occursIn ("[#".data ++ natDigits n ++ "]".data) line ||
    (match findMarker line with
     | some m => m.digs == natDigits n
     | none => false)

/-! ### Concrete inputs for the counterexamples -/

/-- The entry `parseConventionalCommit` derives from title `feat: d` for
PR #5 at URL `u`. -/
def cxEntry5 : Entry :=
  ⟨"feat".data, none, "d".data, 5, "u".data, "Features".data⟩

/-- A changelog whose `### Features` section is not followed by a blank
line. -/
def cxDocTight : Str :=
  "## [Unreleased]\n### Features\n- old\n### Other\n".data

/-- The entry `parseConventionalCommit` derives from title `feat: d` for
PR #7 at URL `u`. -/
def cxEntry7 : Entry :=
  ⟨"feat".data, none, "d".data, 7, "u".data, "Features".data⟩

/-- A changelog whose Unreleased section mentions PR #7 in a plain-text
(non-entry) line. -/
def cxDocStray : Str :=
  "## [Unreleased]\n\n### Features\n\nsee [#7] for details\n".data

/-- An entry text containing two markers already. -/
def cxTwoMarkers : Str :=
  "a <!-- ac:ab:1 --> b <!-- ac:cd:2 --> c".data

/-- The part of `CHANGELOG_TEMPLATE` before the Unreleased heading. -/
def TMPL_HDR : Str :=
  ("# Changelog\n\nAll notable changes to this project will be documented in this file.\n\nThe format is based on [Keep a Changelog](https://keepachangelog.com/en/1.0.0/),\nand this project adheres to [Semantic Versioning](https://semver.org/spec/v2.0.0.html).\n\n").data

/-- The Unreleased block `updateChangelog` produces when it has created the
section header itself: heading, two blank lines left by the template plus
the `'\n'` glued before the created header, the section header, a blank
line, one entry line, and a final newline. -/
def unrBlock (S l : Str) : Str :=
  unrHeading ++ '\n' :: '\n' :: '\n' ::
    ("### ".data ++ (S ++ ('\n' :: '\n' :: (l ++ ['\n']))))

/-- First half of an 8-hex-character fingerprint collision. -/
def cxCollA : Str := "add item 3251 ([#9](u))".data

/-- Second half of the fingerprint collision: a different visible text with
the same `computeEntryHash`. -/
def cxCollB : Str := "add item 29699 ([#9](u))".data

/-- An entry for PR #1 whose scope text mentions PR #7. -/
def cxScopeEntry : Entry :=
  ⟨"feat".data, some "[#7]x".data, "a".data, 1, "u".data, "Features".data⟩

/-- C4 (supporting theorem for the code bug): the title `feature: add login
form` is of the claimed form — `feature` is in the fixed set, and the
mapping table itself sends `feature` to `Features` — yet
`parseConventionalCommit` returns `null`, because the regex alternation
lists `feat` but not `feature`; the sibling title `feat: add login form`
parses and maps to `Features`. -/
theorem parseConventionalCommit_feature_gap :
    parseConventionalCommit "feature: add login form".data "u".data 3 = none ∧
    mappingLookup "feature".data = some "Features".data ∧
    parseConventionalCommit "feat: add login form".data "u".data 3 =
      some ⟨"feat".data, none, "add login form".data, 3, "u".data,
        "Features".data⟩ := by
  decide

set_option maxRecDepth 100000 in
/-- C2 counterexample: for the document
`"## [Unreleased]\n### Features\n- old\n### Other\n"` and the single entry
derived from title `feat: d` for PR #5, the second of two successive
`generate` applications (markEntries true) reports a change and produces a
document different from the first application's output — `updateChangelog`
is not idempotent on this document (the first insertion glues the new line
onto `- old` because no blank line precedes `### Other`). -/
theorem updateChangelog_generate_twice_changes :
    parseConventionalCommit "feat: d".data "u".data 5 = some cxEntry5 ∧
    (updateChangelogText
        (some (updateChangelogText (some cxDocTight) [cxEntry5] true).1)
        [cxEntry5] true).2 = true ∧
    (updateChangelogText
        (some (updateChangelogText (some cxDocTight) [cxEntry5] true).1)
        [cxEntry5] true).1 ≠
      (updateChangelogText (some cxDocTight) [cxEntry5] true).1 := by
  decide

set_option maxRecDepth 100000 in
/-- C3 counterexample: one `generate` application for PR #7 (an entry
derived from title `feat: d`) on a document whose Unreleased section
mentions `[#7]` in a plain-text line leaves **two** lines referencing PR #7
in the Unreleased section: the delete pass only removes entry-shaped lines
(trimmed lines starting `"- "`), not every matching line. -/
theorem updateChangelog_stray_ref_two_lines :
    parseConventionalCommit "feat: d".data "u".data 7 = some cxEntry7 ∧
    ((splitNl (unreleasedSlice
        (updateChangelogText (some cxDocStray) [cxEntry7] true).1)).countP
      (fun l => refsPr l 7)) = 2 := by
  decide

/-- C5 counterexample: a PR description whose only line is
`Please do not /changelog skip this` — the skip phrase occurs strictly
inside a longer line, and no trimmed line equals a skip phrase — still
produces a skip command, because the source tests `body.includes(...)`. -/
theorem descSkip_inside_longer_line :
    (gatherDescCommand (some "Please do not /changelog skip this".data)
        "/changelog:".data "u".data 3).1 = some ⟨.skip, none⟩ ∧
    (splitNl "Please do not /changelog skip this".data).all
      (fun l => !(trim l == SKIP_COMMAND) && !(trim l == SKIP_COMMAND_SLASH))
      = true := by
  decide

/-- C6 counterexample: removing PR #5's entry from
`"# T\n\n- fix bug ([#5](u))\n"` should, byte-for-byte, leave
`"# T\n\n"`; the source instead writes `updatedContent.trim()` and produces
`"# T"`, destroying the surrounding whitespace. -/
theorem removal_trims_whitespace :
    removeAutoGeneratedEntriesText (some "# T\n\n- fix bug ([#5](u))\n".data) 5
      = some "# T".data ∧
    some "# T".data ≠ some ("# T\n\n".data : Str) := by
  decide

set_option maxRecDepth 100000 in
/-- C7 counterexample: `cxCollA` and `cxCollB` are different visible texts
with the same 8-hex-character fingerprint.  Mutating the visible text of the
marked line built for `cxCollA` into `cxCollB` — marker left intact — is
classified `AUTO_UNTOUCHED`, not `AUTO_EDITED`: the detector compares
fingerprints, and truncated-MD5 collisions escape it. -/
theorem detect_collision_not_edited :
    cxCollA ≠ cxCollB ∧
    buildMarkedEntry cxCollA 9 =
      cxCollA ++ ' ' :: markerStr (computeEntryHash cxCollA) 9 ∧
    (detectEntryState
        ("# Changelog\n\n## [Unreleased]\n\n### Features\n\n- ".data ++
          (cxCollB ++ ' ' :: markerStr (computeEntryHash cxCollA) 9) ++ ['\n'])
        9).state = .AUTO_UNTOUCHED := by
  decide

set_option maxRecDepth 100000 in
/-- C9 counterexample: on a text that already carries two markers,
`buildMarkedEntry` applied twice to its own output differs from one
application — the first application strips only the first embedded marker,
so its output still contains a marker and the second application strips that
one instead of the appended one. -/
theorem buildMarkedEntry_twice_differs :
    buildMarkedEntry (buildMarkedEntry cxTwoMarkers 7) 7 ≠
      buildMarkedEntry cxTwoMarkers 7 := by
  decide

/-- C10 counterexample: the line rendered for PR #1 from `cxScopeEntry` —
whose description `a` and URL `u` contain no `[#…]` substring at all — is
nonetheless matched as belonging to PR #7 by the Entry State Detector
(state `MANUAL`, not `NONE`), because the scope text `[#7]x` is rendered
into the line and the `[#n]` containment test sees it. -/
theorem scope_ref_cross_match :
    occursIn "[#".data "a".data = false ∧
    occursIn "[#".data "u".data = false ∧
    (detectEntryState
        ("## [Unreleased]\n".data ++ renderLine false cxScopeEntry ++ ['\n'])
        7).state = .MANUAL := by
  decide

/-! ## Lemma library: `startsWith` and `occursIn` -/

theorem startsWith_nil_pat (s : Str) : startsWith s [] = true := by
  cases s <;> rfl

theorem startsWith_cons (a : Char) (as : Str) (c : Char) (cs : Str) :
    startsWith (a :: as) (c :: cs) = ((a == c) && startsWith as cs) := rfl

theorem startsWith_iff {p s : Str} : startsWith s p = true ↔ ∃ t, s = p ++ t := by
  induction p generalizing s with
  | nil =>
    rw [startsWith_nil_pat]
    exact ⟨fun _ => ⟨s, rfl⟩, fun _ => rfl⟩
  | cons c cs ih =>
    cases s with
    | nil =>
      constructor
      · intro h; exact absurd h (by simp [startsWith])
      · rintro ⟨t, h⟩; exact absurd h (by simp)
    | cons a as =>
      rw [startsWith_cons, Bool.and_eq_true, beq_iff_eq, ih]
      constructor
      · rintro ⟨rfl, t, rfl⟩; exact ⟨t, rfl⟩
      · rintro ⟨t, h⟩
        rw [List.cons_append] at h
        injection h with h1 h2
        exact ⟨h1, t, h2⟩

theorem startsWith_length {p s : Str} (h : startsWith s p = true) :
    p.length ≤ s.length := by
  obtain ⟨t, rfl⟩ := startsWith_iff.mp h
  simp

theorem occursIn_cons (pat : Str) (c : Char) (cs : Str) :
    occursIn pat (c :: cs) = (startsWith (c :: cs) pat || occursIn pat cs) := rfl

theorem occursIn_iff {pat s : Str} :
    occursIn pat s = true ↔ ∃ a b, s = a ++ pat ++ b := by
  induction s with
  | nil =>
    constructor
    · intro h
      have : pat = [] := by
        cases pat with
        | nil => rfl
        | cons x xs => exact absurd h (by simp [occursIn, List.isEmpty])
      exact ⟨[], [], by simp [this]⟩
    · rintro ⟨a, b, h⟩
      have ha : a = [] := by cases a <;> simp_all
      subst ha
      have hp : pat = [] := by cases pat <;> simp_all
      subst hp
      rfl
  | cons c cs ih =>
    rw [occursIn_cons, Bool.or_eq_true, startsWith_iff, ih]
    constructor
    · rintro (⟨t, h⟩ | ⟨a, b, h⟩)
      · exact ⟨[], t, by simpa using h⟩
      · exact ⟨c :: a, b, by simp [h]⟩
    · rintro ⟨a, b, h⟩
      cases a with
      | nil => exact Or.inl ⟨b, by simpa using h⟩
      | cons x xs =>
        rw [List.cons_append, List.cons_append] at h
        injection h with h1 h2
        exact Or.inr ⟨xs, b, h2⟩

theorem occursIn_of_parts (pat a b : Str) : occursIn pat (a ++ pat ++ b) = true :=
  occursIn_iff.mpr ⟨a, b, rfl⟩

theorem occursIn_length {pat s : Str} (h : occursIn pat s = true) :
    pat.length ≤ s.length := by
  obtain ⟨a, b, rfl⟩ := occursIn_iff.mp h
  simp; omega

theorem occursIn_chars {pat s : Str} (h : occursIn pat s = true) :
    ∀ c ∈ pat, c ∈ s := by
  obtain ⟨a, b, rfl⟩ := occursIn_iff.mp h
  intro c hc
  simp [hc]

theorem startsWith_append_sep {pat : Str} {c : Char} (hc : c ∉ pat)
    (a b : Str) : startsWith (a ++ c :: b) pat = startsWith a pat := by
  induction pat generalizing a with
  | nil => rw [startsWith_nil_pat, startsWith_nil_pat]
  | cons q qs ih =>
    cases a with
    | nil =>
      have hq : (c == q) = false := by
        simp only [List.mem_cons, not_or] at hc
        exact beq_false_of_ne hc.1
      simp [startsWith_cons, startsWith, hq]
    | cons x xs =>
      rw [List.cons_append, startsWith_cons, startsWith_cons,
        ih (fun h => hc (List.mem_cons_of_mem _ h))]

theorem occursIn_append_sep {pat : Str} {c : Char} (hc : c ∉ pat)
    (hne : pat ≠ []) (a b : Str) :
    occursIn pat (a ++ c :: b) = (occursIn pat a || occursIn pat b) := by
  induction a with
  | nil =>
    have h1 : startsWith (c :: b) pat = false := by
      cases pat with
      | nil => exact absurd rfl hne
      | cons q qs =>
        have hq : (c == q) = false := by
          simp only [List.mem_cons, not_or] at hc
          exact beq_false_of_ne hc.1
        simp [startsWith_cons, hq]
    have h2 : occursIn pat [] = false := by
      cases pat with
      | nil => exact absurd rfl hne
      | cons q qs => rfl
    simp [occursIn_cons, h1, h2]
  | cons x xs ih =>
    rw [List.cons_append, occursIn_cons, occursIn_cons, ih,
      show x :: (xs ++ c :: b) = (x :: xs) ++ c :: b from rfl,
      startsWith_append_sep hc]
    cases startsWith (x :: xs) pat <;> simp

theorem occursIn_false_of_head_notMem {q : Char} {qs s : Str}
    (h : q ∉ s) : occursIn (q :: qs) s = false := by
  by_contra hx
  have := occursIn_chars (by simpa using Bool.of_not_eq_false hx) q (by simp)
  exact h this

/-! ## Lemma library: `splitNl` and `joinNl` -/

theorem splitNl_nl (cs : Str) : splitNl ('\n' :: cs) = [] :: splitNl cs := by
  simp [splitNl]

theorem splitNl_ne_nil (s : Str) : splitNl s ≠ [] := by
  cases s with
  | nil => simp [splitNl]
  | cons c cs =>
    by_cases h : c = '\n'
    · subst h; rw [splitNl_nl]; simp
    · have hb : (c == '\n') = false := beq_false_of_ne h
      simp only [splitNl, hb, Bool.false_eq_true, if_false]
      rcases splitNl cs with _ | ⟨x, t⟩ <;> simp

theorem splitNl_cons_ne {c : Char} (h : c ≠ '\n') (cs : Str) :
    splitNl (c :: cs) =
      (c :: (splitNl cs).headI) :: (splitNl cs).tail := by
  have hb : (c == '\n') = false := beq_false_of_ne h
  rcases hr : splitNl cs with _ | ⟨x, t⟩
  · exact absurd hr (splitNl_ne_nil cs)
  · simp [splitNl, hb, hr]

theorem joinNl_cons {ls : List Str} (l : Str) (h : ls ≠ []) :
    joinNl (l :: ls) = l ++ '\n' :: joinNl ls := by
  cases ls with
  | nil => exact absurd rfl h
  | cons l2 t => rfl

theorem joinNl_splitNl (s : Str) : joinNl (splitNl s) = s := by
  induction s with
  | nil => rfl
  | cons c cs ih =>
    by_cases h : c = '\n'
    · subst h
      rw [splitNl_nl, joinNl_cons _ (splitNl_ne_nil cs), ih]
      rfl
    · rw [splitNl_cons_ne h]
      rcases hr : splitNl cs with _ | ⟨x, t⟩
      · exact absurd hr (splitNl_ne_nil cs)
      · rw [hr] at ih
        cases t with
        | nil =>
          simp only [List.headI, List.tail]
          exact congrArg (fun z => c :: z) ih
        | cons y ys =>
          simp only [List.headI, List.tail]
          rw [joinNl_cons _ (by simp), List.cons_append,
            ← joinNl_cons _ (by simp : (y :: ys : List Str) ≠ [])]
          exact congrArg (fun z => c :: z) ih

theorem splitNl_no_nl {l : Str} (h : '\n' ∉ l) : splitNl l = [l] := by
  induction l with
  | nil => rfl
  | cons c cs ih =>
    have hc : c ≠ '\n' := fun he => h (he ▸ List.mem_cons_self c cs)
    rw [splitNl_cons_ne hc,
      ih (fun hm => h (List.mem_cons_of_mem _ hm))]
    rfl

theorem splitNl_append_nl {a : Str} (h : '\n' ∉ a) (b : Str) :
    splitNl (a ++ '\n' :: b) = a :: splitNl b := by
  induction a with
  | nil => exact splitNl_nl b
  | cons x xs ih =>
    have hx : x ≠ '\n' := fun he => h (he ▸ List.mem_cons_self x xs)
    rw [List.cons_append,
      splitNl_cons_ne hx, ih (fun hm => h (List.mem_cons_of_mem _ hm))]
    rfl

theorem splitNl_joinNl {L : List Str} (h : ∀ l ∈ L, '\n' ∉ l) (hne : L ≠ []) :
    splitNl (joinNl L) = L := by
  induction L with
  | nil => exact absurd rfl hne
  | cons l ls ih =>
    cases ls with
    | nil => exact splitNl_no_nl (h l (by simp))
    | cons l2 t =>
      rw [joinNl_cons _ (by simp), splitNl_append_nl (h l (by simp)),
        ih (fun x hx => h x (List.mem_cons_of_mem _ hx)) (by simp)]

theorem mem_splitNl_no_nl {s : Str} : ∀ l ∈ splitNl s, '\n' ∉ l := by
  induction s with
  | nil =>
    intro l hl
    have : l = [] := by simpa [splitNl] using hl
    simp [this]
  | cons c cs ih =>
    intro l hl
    by_cases h : c = '\n'
    · subst h
      rw [splitNl_nl] at hl
      rcases List.mem_cons.mp hl with hl | hl
      · simp [hl]
      · exact ih l hl
    · rw [splitNl_cons_ne h] at hl
      rcases hr : splitNl cs with _ | ⟨x, t⟩
      · exact absurd hr (splitNl_ne_nil cs)
      · rw [hr] at hl
        simp only [List.headI, List.tail] at hl
        rcases List.mem_cons.mp hl with hl | hl
        · subst hl
          intro hm
          rcases List.mem_cons.mp hm with hm | hm
          · exact h hm.symm
          · exact ih x (by simp [hr]) hm
        · exact ih l (by simp [hr, hl])

theorem occursIn_joinNl {pat : Str} (hne : pat ≠ []) (hnl : '\n' ∉ pat)
    (L : List Str) : occursIn pat (joinNl L) = L.any (occursIn pat) := by
  induction L with
  | nil =>
    cases pat with
    | nil => exact absurd rfl hne
    | cons q qs => rfl
  | cons l ls ih =>
    cases ls with
    | nil =>
      simp [joinNl]
    | cons l2 t =>
      rw [joinNl_cons _ (by simp), occursIn_append_sep hnl hne, ih]
      simp

/-! ## Lemma library: `trim` -/

theorem trimL_cons_no_ws {a : Char} (h : jsWs a = false) (s : Str) :
    trimL (a :: s) = a :: s := by
  simp [trimL, List.dropWhile, h]

theorem trimR_append_no_ws {b : Char} (h : jsWs b = false) (s : Str) :
    trimR (s ++ [b]) = s ++ [b] := by
  simp [trimR, List.dropWhile, h]

theorem trimR_cons_exists {c : Char} (h : jsWs c = false) (t : Str) :
    ∃ t', trimR (c :: t) = c :: t' := by
  unfold trimR
  rw [show (c :: t).reverse = t.reverse ++ [c] by simp, List.dropWhile_append]
  by_cases he : (t.reverse.dropWhile jsWs).isEmpty
  · rw [if_pos he]
    exact ⟨[], by simp [List.dropWhile, h]⟩
  · rw [if_neg he]
    rcases hr : t.reverse.dropWhile jsWs with _ | ⟨x, xs⟩
    · rw [hr] at he; simp at he
    · exact ⟨(x :: xs).reverse, by simp⟩

theorem trim_cons_exists {c : Char} (h : jsWs c = false) (t : Str) :
    ∃ t', trim (c :: t) = c :: t' := by
  unfold trim
  rw [trimL_cons_no_ws h]
  exact trimR_cons_exists h t

theorem trim_of_ends {a b : Char} (ha : jsWs a = false) (hb : jsWs b = false)
    (m : Str) : trim (a :: (m ++ [b])) = a :: (m ++ [b]) := by
  unfold trim
  rw [trimL_cons_no_ws ha,
    show a :: (m ++ [b]) = (a :: m) ++ [b] from rfl,
    trimR_append_no_ws hb]

theorem trim_single {a : Char} (ha : jsWs a = false) : trim [a] = [a] := by
  unfold trim
  rw [trimL_cons_no_ws ha, show [a] = ([] : Str) ++ [a] from rfl,
    trimR_append_no_ws ha]

theorem trim_append_ws {w : Char} (hw : jsWs w = true) (s : Str) :
    trim (s ++ [w]) = trim s := by
  unfold trim trimL
  rw [List.dropWhile_append]
  by_cases he : (s.dropWhile jsWs).isEmpty
  · rw [if_pos he]
    rw [List.isEmpty_iff] at he
    rw [he]
    simp [List.dropWhile, hw, trimR]
  · rw [if_neg he]
    unfold trimR
    rw [show (s.dropWhile jsWs ++ [w]).reverse = w :: (s.dropWhile jsWs).reverse
        by simp]
    simp [List.dropWhile, hw]

/-! ## Lemma library: decimal digits -/

theorem digitChar_toNat {n : Nat} (h : n < 10) :
    (digitChar n).toNat = 48 + n := by
  interval_cases n <;> rfl

theorem decDigit_digitChar {n : Nat} (h : n < 10) :
    decDigit (digitChar n) = true := by
  interval_cases n <;> rfl

theorem natDigitsGo_ne_nil {fuel n : Nat} (h : n < fuel) :
    natDigitsGo fuel n ≠ [] := by
  cases fuel with
  | zero => omega
  | succ f =>
    unfold natDigitsGo
    by_cases h10 : n < 10 <;> simp [h10]

theorem natDigits_ne_nil (n : Nat) : natDigits n ≠ [] :=
  natDigitsGo_ne_nil (Nat.lt_succ_self n)

theorem natDigitsGo_all_digit {fuel n : Nat} (h : n < fuel) :
    ∀ c ∈ natDigitsGo fuel n, decDigit c = true := by
  induction fuel generalizing n with
  | zero => omega
  | succ f ih =>
    unfold natDigitsGo
    by_cases h10 : n < 10
    · simp only [if_pos h10]
      intro c hc
      rw [List.mem_singleton.mp hc]
      exact decDigit_digitChar h10
    · simp only [if_neg h10]
      intro c hc
      rcases List.mem_append.mp hc with hc | hc
      · have hlt : n / 10 < f := by
          have h1 : n / 10 < n := Nat.div_lt_self (by omega) (by omega)
          omega
        exact ih hlt c hc
      · rw [List.mem_singleton.mp hc]
        exact decDigit_digitChar (Nat.mod_lt _ (by omega))

theorem natDigits_all_digit (n : Nat) :
    ∀ c ∈ natDigits n, decDigit c = true :=
  natDigitsGo_all_digit (Nat.lt_succ_self n)

theorem decDigit_toNat {c : Char} (h : decDigit c = true) :
    48 ≤ c.toNat ∧ c.toNat ≤ 57 := by
  unfold decDigit at h
  simp only [Bool.and_eq_true, decide_eq_true_eq] at h
  exact h

theorem digitsVal_append_digit (s : Str) (c : Char) :
    digitsVal (s ++ [c]) = 10 * digitsVal s + (c.toNat - 48) := by
  unfold digitsVal
  rw [List.foldl_append]
  rfl

theorem digitsVal_natDigitsGo {fuel n : Nat} (h : n < fuel) :
    digitsVal (natDigitsGo fuel n) = n := by
  induction fuel generalizing n with
  | zero => omega
  | succ f ih =>
    unfold natDigitsGo
    by_cases h10 : n < 10
    · simp only [if_pos h10]
      show 10 * 0 + ((digitChar n).toNat - 48) = n
      rw [digitChar_toNat h10]
      omega
    · simp only [if_neg h10]
      rw [digitsVal_append_digit]
      have hlt : n / 10 < f := by
        have h1 : n / 10 < n := Nat.div_lt_self (by omega) (by omega)
        omega
      rw [ih hlt, digitChar_toNat (Nat.mod_lt _ (by omega))]
      omega

theorem digitsVal_natDigits (n : Nat) : digitsVal (natDigits n) = n :=
  digitsVal_natDigitsGo (Nat.lt_succ_self n)

theorem natDigits_inj {n m : Nat} (h : natDigits n = natDigits m) : n = m := by
  have := congrArg digitsVal h
  rwa [digitsVal_natDigits, digitsVal_natDigits] at this

theorem natDigits_notMem {n : Nat} {c : Char}
    (h : c.toNat < 48 ∨ 57 < c.toNat) : c ∉ natDigits n := by
  intro hm
  have := decDigit_toNat (natDigits_all_digit n c hm)
  omega

/-! ## C5: description skip recognition -/

/-- C5 (amended): scanning a PR description recognizes a skip command if and
only if some line of the description **contains** a skip phrase
(`/changelog skip` or `/changelog: skip`) as a substring — equivalently, the
body contains one, since the phrases span no newline.  Whole-trimmed-line
equality is *not* required: an occurrence strictly inside a longer line does
produce a skip command. -/
theorem descSkip_iff_line_contains (b trigger prUrl : Str) (n : Nat) :
    ((gatherDescCommand (some b) trigger prUrl n).1.map Command.command
      = some CommandKind.skip) ↔
    ∃ l ∈ splitNl b,
      (occursIn SKIP_COMMAND_SLASH l = true ∨ occursIn SKIP_COMMAND l = true) := by
  have hs1 : occursIn SKIP_COMMAND_SLASH b
      = (splitNl b).any (occursIn SKIP_COMMAND_SLASH) := by
    conv_lhs => rw [← joinNl_splitNl b]
    exact occursIn_joinNl (by decide) (by decide) _
  have hs2 : occursIn SKIP_COMMAND b
      = (splitNl b).any (occursIn SKIP_COMMAND) := by
    conv_lhs => rw [← joinNl_splitNl b]
    exact occursIn_joinNl (by decide) (by decide) _
  simp only [gatherDescCommand]
  by_cases he : b.isEmpty
  · rw [List.isEmpty_iff.mp he]
    constructor
    · intro h; simp [if_pos] at h
    · rintro ⟨l, hl, hp | hp⟩ <;>
        · rw [show splitNl [] = [[]] from rfl, List.mem_singleton] at hl
          subst hl
          exact absurd hp (by decide)
  · rw [if_neg he]
    by_cases hocc : (occursIn SKIP_COMMAND_SLASH b || occursIn SKIP_COMMAND b) = true
    · rw [if_pos hocc]
      constructor
      · intro _
        have hocc' : occursIn SKIP_COMMAND_SLASH b = true ∨
            occursIn SKIP_COMMAND b = true := by
          simpa using hocc
        rcases hocc' with h | h
        · rw [hs1] at h
          obtain ⟨l, hl, hpl⟩ := List.any_eq_true.mp h
          exact ⟨l, hl, Or.inl hpl⟩
        · rw [hs2] at h
          obtain ⟨l, hl, hpl⟩ := List.any_eq_true.mp h
          exact ⟨l, hl, Or.inr hpl⟩
      · intro _; rfl
    · rw [if_neg hocc]
      constructor
      · intro hL
        exfalso
        by_cases ht : occursIn trigger b = true
        · rw [if_pos ht] at hL
          rcases hpc : parseChangelogComment b trigger prUrl n with _ | p <;>
            rw [hpc] at hL <;> simp at hL
        · rw [if_neg ht] at hL
          simp at hL
      · rintro ⟨l, hl, hp | hp⟩
        · have h1 : occursIn SKIP_COMMAND_SLASH b = true := by
            rw [hs1]; exact List.any_eq_true.mpr ⟨l, hl, hp⟩
          exact absurd (by simp [h1]) hocc
        · have h1 : occursIn SKIP_COMMAND b = true := by
            rw [hs2]; exact List.any_eq_true.mpr ⟨l, hl, hp⟩
          exact absurd (by simp [h1]) hocc

/-! ## C6: the removal operation -/

/-- The removal loop of `removeAutoGeneratedEntries`, characterized: the
accumulator collects exactly the non-matching lines in order (each with a
trailing LF), and the flag records whether any line matched. -/
theorem removal_fold_spec (n : Nat) (lines : List Str) (acc : Str × Bool) :
    lines.foldl
      (fun (acc : Str × Bool) line =>
        if lineMatchesPr line n then (acc.1, true)
        else (acc.1 ++ line ++ ['\n'], acc.2))
      acc =
    (acc.1 ++
      (List.map (fun l => l ++ ['\n'])
        (lines.filter (fun l => !lineMatchesPr l n))).flatten,
     acc.2 || lines.any (fun l => lineMatchesPr l n)) := by
  induction lines generalizing acc with
  | nil => simp
  | cons l ls ih =>
    by_cases hm : lineMatchesPr l n
    · simp only [List.foldl_cons, if_pos hm, ih, List.filter_cons,
        hm, List.any_cons]
      simp [hm]
    · simp only [List.foldl_cons, if_neg hm, ih, List.filter_cons,
        List.any_cons]
      simp only [Bool.not_eq_true] at hm
      simp [hm, List.append_assoc]

/-- C6 (amended): `removeAutoGeneratedEntries` deletes exactly the
entry-shaped lines matching the PR (by link or marker), keeps every other
line in order and adds nothing — but when something was deleted the result
is the kept lines re-joined with LF (one trailing LF each) and then
`String.trim`med, so leading/trailing whitespace of the document is *not*
preserved byte-for-byte; when no line matches, the document is left entirely
unchanged (no write). -/
theorem removeEntries_filter_trim (c : Str) (n : Nat) :
    removeAutoGeneratedEntriesText (some c) n =
      (if (splitNl c).any (fun l => lineMatchesPr l n) then
        some (trim (List.flatten (List.map (fun l => l ++ ['\n'])
          ((splitNl c).filter (fun l => !lineMatchesPr l n)))))
      else some c) := by
  show (let r := (splitNl c).foldl _ ([], false);
        if r.2 then some (trim r.1) else some c) = _
  rw [removal_fold_spec]
  simp only [Bool.false_or, List.nil_append]

/-! ## Lemma library: first-occurrence search -/

theorem firstIdx?_none_iff {pat s : Str} :
    firstIdx? pat s = none ↔ occursIn pat s = false := by
  induction s with
  | nil => cases pat <;> simp [firstIdx?, occursIn, List.isEmpty]
  | cons c cs ih =>
    simp only [firstIdx?, occursIn_cons]
    by_cases h : startsWith (c :: cs) pat = true
    · simp [h]
    · rw [Bool.not_eq_true] at h
      simp [h, ih, Option.map_eq_none']

theorem startsWith_truncate {pat s : Str} (h : pat.length ≤ s.length)
    (b : Str) : startsWith (s ++ b) pat = startsWith s pat := by
  induction pat generalizing s with
  | nil => rw [startsWith_nil_pat, startsWith_nil_pat]
  | cons q qs ih =>
    cases s with
    | nil => simp at h
    | cons x xs =>
      rw [List.cons_append, startsWith_cons, startsWith_cons,
        ih (by simpa using h)]

theorem firstIdx?_append_left {pat a : Str}
    (h : (firstIdx? pat a).isSome = true) (b : Str) :
    firstIdx? pat (a ++ b) = firstIdx? pat a := by
  induction a with
  | nil =>
    cases pat with
    | nil => cases b <;> simp [firstIdx?, startsWith_nil_pat]
    | cons q qs => simp [firstIdx?] at h
  | cons x xs ih =>
    have hocc : occursIn pat (x :: xs) = true := by
      by_contra hx
      have hn := firstIdx?_none_iff.mpr (Bool.eq_false_iff.mpr hx)
      rw [hn] at h
      simp at h
    have hlen := occursIn_length hocc
    by_cases hs : startsWith (x :: xs) pat = true
    · have hs2 : startsWith ((x :: xs) ++ b) pat = true := by
        rw [startsWith_truncate hlen]
        exact hs
      rw [List.cons_append] at hs2
      show firstIdx? pat (x :: (xs ++ b)) = firstIdx? pat (x :: xs)
      simp only [firstIdx?]
      rw [if_pos hs2, if_pos hs]
    · have hs2 : startsWith ((x :: xs) ++ b) pat = false := by
        rw [startsWith_truncate hlen]
        exact Bool.eq_false_iff.mpr hs
      rw [List.cons_append] at hs2
      have hrest : (firstIdx? pat xs).isSome = true := by
        simp only [firstIdx?, if_neg hs] at h
        simpa using h
      show firstIdx? pat (x :: (xs ++ b)) = firstIdx? pat (x :: xs)
      simp only [firstIdx?]
      rw [if_neg (by simp [hs2]), if_neg hs, ih hrest]

theorem occursIn_append_or {pat a b : Str}
    (h : occursIn pat (a ++ b) = true) :
    occursIn pat a = true ∨ occursIn pat b = true ∨
      ∃ p₁ p₂, pat = p₁ ++ p₂ ∧ p₁ ≠ [] ∧ p₂ ≠ [] ∧
        (∃ a', a = a' ++ p₁) ∧ (∃ b', b = p₂ ++ b') := by
  obtain ⟨x, y, hxy⟩ := occursIn_iff.mp h
  rw [List.append_assoc] at hxy
  rcases List.append_eq_append_iff.mp hxy with ⟨w, hw1, hw2⟩ | ⟨w, hw1, hw2⟩
  · -- x = a ++ w, b = w ++ (pat ++ y): the occurrence lies inside b
    exact Or.inr (Or.inl (occursIn_iff.mpr ⟨w, y, by
      rw [hw2, List.append_assoc]⟩))
  · -- a = x ++ w, pat ++ y = w ++ b
    rcases List.append_eq_append_iff.mp hw2 with ⟨v, hv1, hv2⟩ | ⟨v, hv1, hv2⟩
    · -- w = pat ++ v, y = v ++ b: the occurrence lies inside a
      exact Or.inl (occursIn_iff.mpr ⟨x, v, by
        rw [hw1, hv1, List.append_assoc]⟩)
    · -- pat = w ++ v, b = v ++ y
      cases w with
      | nil =>
        simp only [List.nil_append] at hv1
        exact Or.inr (Or.inl (occursIn_iff.mpr ⟨[], y, by
          rw [hv2, hv1]; simp⟩))
      | cons ww wws =>
        cases hvn : v with
        | nil =>
          subst hvn
          rw [List.append_nil] at hv1
          exact Or.inl (occursIn_iff.mpr ⟨x, [], by
            rw [hw1, hv1]; simp⟩)
        | cons vv vvs =>
          exact Or.inr (Or.inr ⟨ww :: wws, v, by rw [hv1, hvn], by simp,
            by simp [hvn], ⟨x, hw1⟩, ⟨y, by rw [hv2, hvn]⟩⟩)

/-! ## Lemma library: the marker codec -/

theorem dropPre?_self (p r : Str) : dropPre? p (p ++ r) = some r := by
  induction p with
  | nil => rfl
  | cons q qs ih => simp [dropPre?, ih]

theorem dropPre?_ext {pat t : Str} (h : dropPre? pat t = none) (u : Str) :
    dropPre? pat (t ++ u) = none ∨
      ∃ p₂, pat = t ++ p₂ ∧ p₂ ≠ [] ∧ dropPre? pat (t ++ u) = dropPre? p₂ u := by
  induction pat generalizing t with
  | nil => simp [dropPre?] at h
  | cons q qs ih =>
    cases t with
    | nil =>
      exact Or.inr ⟨q :: qs, rfl, by simp, rfl⟩
    | cons c ts =>
      by_cases hc : (c == q) = true
      · have hcq : c = q := by simpa using hc
        subst hcq
        simp only [dropPre?, beq_self_eq_true, if_true] at h
        rcases ih h with h2 | ⟨p₂, hp1, hp2, hp3⟩
        · left
          rw [List.cons_append]
          simp [dropPre?, h2]
        · right
          refine ⟨p₂, ?_, hp2, ?_⟩
          · rw [List.cons_append, ← hp1]
          · rw [List.cons_append]
            simp only [dropPre?, beq_self_eq_true, if_true]
            exact hp3
      · left
        rw [List.cons_append]
        simp [dropPre?, hc]

theorem dropWhile_cons_head {p : Char → Bool} {l : Str} {y : Char} {ys : Str}
    (h : l.dropWhile p = y :: ys) : p y = false := by
  induction l with
  | nil => simp at h
  | cons c cs ih =>
    by_cases hc : p c
    · rw [List.dropWhile_cons, if_pos hc] at h
      exact ih h
    · rw [List.dropWhile_cons, if_neg hc] at h
      injection h with h1 _
      rw [← h1]
      exact Bool.eq_false_iff.mpr hc

theorem takeWhile_all_append {p : Char → Bool} {h : Str}
    (hall : ∀ c ∈ h, p c = true) {x : Char} (hx : p x = false) (r : Str) :
    (h ++ x :: r).takeWhile p = h ∧ (h ++ x :: r).dropWhile p = x :: r := by
  induction h with
  | nil => simp [List.takeWhile_cons, List.dropWhile_cons, hx]
  | cons c cs ih =>
    have hc : p c = true := hall c (by simp)
    have := ih (fun d hd => hall d (by simp [hd]))
    simp [List.takeWhile_cons, List.dropWhile_cons, hc, this.1, this.2]

theorem matchMarkerAt_cons_ne {c : Char} (h : c ≠ '<') (s : Str) :
    matchMarkerAt (c :: s) = none := by
  have hb : (c == '<') = false := beq_false_of_ne h
  have hdp : dropPre? "<!-- ac:".data (c :: s) = none := by
    rw [show "<!-- ac:".data = '<' :: "!-- ac:".data from rfl]
    simp [dropPre?, hb]
  simp [matchMarkerAt, hdp]

theorem matchMarkerHex_marker {h d : Str} (hh : allHex h = true)
    (hhe : h ≠ []) (hd : allDec d = true) (hde : d ≠ []) (rest : Str) :
    matchMarkerHex (h ++ ':' :: (d ++ (" -->".data ++ rest)))
      = some (h, d, rest) := by
  have hhex := takeWhile_all_append (p := hexDigit)
    (fun c hc => List.all_eq_true.mp hh c hc)
    (show hexDigit ':' = false by decide) (d ++ (" -->".data ++ rest))
  have hhe' : h.isEmpty = false := by
    cases h with
    | nil => exact absurd rfl hhe
    | cons a b => rfl
  rw [matchMarkerHex]
  simp only [hhex.1, hhex.2, hhe', Bool.false_eq_true, if_false]
  rw [matchMarkerColon]
  have hdec := takeWhile_all_append (p := decDigit)
    (fun c hc => List.all_eq_true.mp hd c hc)
    (show decDigit ' ' = false by decide) ("-->".data ++ rest)
  rw [show (d ++ (" -->".data ++ rest) : Str) = d ++ ' ' :: ("-->".data ++ rest)
    from by simp] at *
  have hde' : d.isEmpty = false := by
    cases d with
    | nil => exact absurd rfl hde
    | cons a b => rfl
  simp only [hdec.1, hdec.2, hde', Bool.false_eq_true, if_false]
  rw [matchMarkerClose,
    show (' ' :: ("-->".data ++ rest) : Str) = " -->".data ++ rest from rfl,
    dropPre?_self]

theorem matchMarkerAt_marker {h d : Str} (hh : allHex h = true) (hhe : h ≠ [])
    (hd : allDec d = true) (hde : d ≠ []) (rest : Str) :
    matchMarkerAt ("<!-- ac:".data ++ (h ++ ':' :: (d ++ (" -->".data ++ rest))))
      = some (h, d, rest) := by
  rw [matchMarkerAt]
  rw [dropPre?_self]
  exact matchMarkerHex_marker hh hhe hd hde rest

theorem dropPre?_some_iff {p s r : Str} :
    dropPre? p s = some r ↔ s = p ++ r := by
  induction p generalizing s with
  | nil =>
    simp [dropPre?, eq_comm]
  | cons q qs ih =>
    cases s with
    | nil => simp [dropPre?]
    | cons c cs =>
      by_cases hc : (c == q) = true
      · have : c = q := by simpa using hc
        subst this
        simp only [dropPre?, beq_self_eq_true, if_true, List.cons_append,
          List.cons.injEq, true_and]
        exact ih
      · have : ¬ c = q := by simpa using hc
        simp [dropPre?, hc, this]

/-- No prefix-match of the closing literal `" -->"` can begin inside `r3` and
complete inside an appended `' ' :: '<' :: v` (the first two characters of a
space-then-marker continuation). -/
theorem dropPre?_close_ext {r3 : Str} (h : dropPre? " -->".data r3 = none)
    (v : Str) : dropPre? " -->".data (r3 ++ ' ' :: '<' :: v) = none := by
  rcases dropPre?_ext h (' ' :: '<' :: v) with h2 | ⟨p₂, hp1, hp2, hp3⟩
  · exact h2
  · have hsuf : p₂ <:+ " -->".data := ⟨r3, hp1.symm⟩
    have hmem := (List.mem_tails p₂ " -->".data).mpr hsuf
    simp only [show (" -->".data : List Char) = [' ', '-', '-', '>'] from rfl,
      List.tails] at hmem
    rw [hp3]
    fin_cases hmem
    · rfl
    · rfl
    · rfl
    · rfl
    · exact absurd rfl hp2

theorem matchMarkerClose_ext {hh d r3 : Str}
    (h : matchMarkerClose hh d r3 = none) (v : Str) :
    matchMarkerClose hh d (r3 ++ ' ' :: '<' :: v) = none := by
  rcases hdp : dropPre? " -->".data r3 with _ | r4
  · rw [matchMarkerClose, dropPre?_close_ext hdp]
  · rw [matchMarkerClose, hdp] at h
    exact absurd h (by simp)

theorem matchMarkerColon_cons_ne {c : Char} (hc : c ≠ ':') (hh r2 : Str) :
    matchMarkerColon hh (c :: r2) = none := by
  unfold matchMarkerColon
  split
  · next heq => injection heq with h1 _; exact absurd h1 hc
  · rfl

theorem all_of_dropWhile_eq_nil {p : Char → Bool} {l : Str}
    (h : l.dropWhile p = []) : ∀ c ∈ l, p c = true := by
  induction l with
  | nil => simp
  | cons x xs ih =>
    rw [List.dropWhile_cons] at h
    by_cases hx : p x
    · rw [if_pos hx] at h
      intro c hc
      rcases List.mem_cons.mp hc with hc | hc
      · rw [hc]; exact hx
      · exact ih h c hc
    · rw [if_neg hx] at h
      simp at h

theorem matchMarkerColon_ext {hh r1 : Str}
    (h : matchMarkerColon hh r1 = none) (v : Str) :
    matchMarkerColon hh (r1 ++ ' ' :: '<' :: v) = none := by
  cases r1 with
  | nil => rfl
  | cons c r2 =>
    by_cases hc : c = ':'
    · subst hc
      rw [List.cons_append]
      rw [matchMarkerColon] at h ⊢
      rcases hdw : r2.dropWhile decDigit with _ | ⟨y, r3⟩
      · have hall := all_of_dropWhile_eq_nil hdw
        have hta := takeWhile_all_append (p := decDigit) hall
          (show decDigit ' ' = false by decide) ('<' :: v)
        simp only [hta.1, hta.2]
        cases r2 with
        | nil => rfl
        | cons a r2' =>
          simp only [show ((a :: r2').isEmpty = false) from rfl,
            Bool.false_eq_true, if_false]
          rfl
      · have hy : decDigit y = false := dropWhile_cons_head hdw
        have htk : (r2 ++ ' ' :: '<' :: v).takeWhile decDigit
            = r2.takeWhile decDigit := by
          rw [List.takeWhile_append]
          by_cases hlen : (r2.takeWhile decDigit).length = r2.length
          · have hdnil : r2.dropWhile decDigit = [] := by
              have h1 := congrArg List.length
                (List.takeWhile_append_dropWhile (p := decDigit) (l := r2))
              rw [List.length_append] at h1
              have h2 : (r2.dropWhile decDigit).length = 0 := by omega
              exact List.length_eq_zero.mp h2
            rw [hdnil] at hdw
            exact absurd hdw (by simp)
          · rw [if_neg hlen]
        have hdr : (r2 ++ ' ' :: '<' :: v).dropWhile decDigit
            = (y :: r3) ++ ' ' :: '<' :: v := by
          rw [List.dropWhile_append, hdw]
          simp
        simp only [htk, hdr, hdw] at h ⊢
        by_cases hie : (r2.takeWhile decDigit).isEmpty
        · rw [if_pos hie]
        · rw [if_neg hie] at h ⊢
          exact matchMarkerClose_ext h v
    · rw [List.cons_append]
      exact matchMarkerColon_cons_ne hc _ _

theorem matchMarkerHex_ext {r0 : Str} (h : matchMarkerHex r0 = none)
    (v : Str) : matchMarkerHex (r0 ++ ' ' :: '<' :: v) = none := by
  rw [matchMarkerHex] at h ⊢
  rcases hdw : r0.dropWhile hexDigit with _ | ⟨y, r1⟩
  · have hall := all_of_dropWhile_eq_nil hdw
    have hta := takeWhile_all_append (p := hexDigit) hall
      (show hexDigit ' ' = false by decide) ('<' :: v)
    simp only [hta.1, hta.2]
    cases r0 with
    | nil => rfl
    | cons a r0' =>
      simp only [show ((a :: r0').isEmpty = false) from rfl,
        Bool.false_eq_true, if_false]
      rfl
  · have htk : (r0 ++ ' ' :: '<' :: v).takeWhile hexDigit
        = r0.takeWhile hexDigit := by
      rw [List.takeWhile_append]
      by_cases hlen : (r0.takeWhile hexDigit).length = r0.length
      · have hnil : r0.dropWhile hexDigit = [] := by
          have h1 := congrArg List.length
            (List.takeWhile_append_dropWhile (p := hexDigit) (l := r0))
          rw [List.length_append] at h1
          have h2 : (r0.dropWhile hexDigit).length = 0 := by omega
          exact List.length_eq_zero.mp h2
        rw [hnil] at hdw
        exact absurd hdw (by simp)
      · rw [if_neg hlen]
    have hdr : (r0 ++ ' ' :: '<' :: v).dropWhile hexDigit
        = (y :: r1) ++ ' ' :: '<' :: v := by
      rw [List.dropWhile_append, hdw]
      simp
    simp only [htk, hdr, hdw] at h ⊢
    by_cases hie : (r0.takeWhile hexDigit).isEmpty
    · rw [if_pos hie]
    · rw [if_neg hie] at h ⊢
      rw [List.cons_append]
      exact matchMarkerColon_ext h v

/-- The central no-straddle fact: a failed marker match at a position cannot
be turned into a success by appending a space-then-marker continuation. -/
theorem matchMarkerAt_ext {t : Str} (h : matchMarkerAt t = none) (v : Str) :
    matchMarkerAt (t ++ ' ' :: '<' :: v) = none := by
  rcases hdp : dropPre? "<!-- ac:".data t with _ | r0
  · rcases dropPre?_ext hdp (' ' :: '<' :: v) with h2 | ⟨p₂, hp1, hp2, hp3⟩
    · rw [matchMarkerAt, h2]
    · have hsuf : p₂ <:+ "<!-- ac:".data := ⟨t, hp1.symm⟩
      have hmem := (List.mem_tails p₂ "<!-- ac:".data).mpr hsuf
      simp only [show ("<!-- ac:".data : List Char)
          = ['<', '!', '-', '-', ' ', 'a', 'c', ':'] from rfl,
        List.tails] at hmem
      rw [matchMarkerAt, hp3]
      fin_cases hmem
      · rfl
      · rfl
      · rfl
      · rfl
      · rfl
      · rfl
      · rfl
      · rfl
      · exact absurd rfl hp2
  · rw [matchMarkerAt, hdp] at h
    have ht : t = "<!-- ac:".data ++ r0 := dropPre?_some_iff.mp hdp
    rw [matchMarkerAt, ht, List.append_assoc, dropPre?_self]
    exact matchMarkerHex_ext h v

theorem natDigits_allDec (n : Nat) : allDec (natDigits n) = true :=
  List.all_eq_true.mpr (natDigits_all_digit n)

/-- A rendered marker template, followed by anything, parses back to exactly
its hash and digit parts. -/
theorem matchMarkerAt_markerStr {hx : Str} (hh : allHex hx = true)
    (hhe : hx ≠ []) (n : Nat) (rest : Str) :
    matchMarkerAt (markerStr hx n ++ rest) = some (hx, natDigits n, rest) := by
  have he : markerStr hx n ++ rest
      = "<!-- ac:".data ++
        (hx ++ ':' :: (natDigits n ++ (" -->".data ++ rest))) := by
    simp [markerStr]
  rw [he]
  exact matchMarkerAt_marker hh hhe (natDigits_allDec n) (natDigits_ne_nil n)
    rest

theorem findMarker_of_matchMarkerAt {s hx d rest : Str}
    (hm : matchMarkerAt s = some (hx, d, rest)) :
    findMarker s = some ⟨[], hx, d, rest⟩ := by
  cases s with
  | nil => exact absurd hm (by simp [matchMarkerAt, dropPre?])
  | cons c cs => simp only [findMarker, hm]

theorem findMarker_cons_none {c : Char} {cs : Str}
    (hf : findMarker (c :: cs) = none) :
    matchMarkerAt (c :: cs) = none ∧ findMarker cs = none := by
  rw [show findMarker (c :: cs)
      = (match matchMarkerAt (c :: cs) with
        | some (h, d, rest) => some ⟨[], h, d, rest⟩
        | none =>
          (findMarker cs).map fun m => { m with before := c :: m.before })
      from rfl] at hf
  rcases hm : matchMarkerAt (c :: cs) with _ | ⟨hh, dd, rr⟩
  · rw [hm] at hf
    rcases hg : findMarker cs with _ | m
    · exact ⟨rfl, rfl⟩
    · rw [hg] at hf
      simp at hf
  · rw [hm] at hf
    simp at hf

/-- A marker appended (after a space) to marker-free text is found, with the
whole original text plus the space as the prefix and nothing after. -/
theorem findMarker_append_marker {s hx : Str} (hf : findMarker s = none)
    (hh : allHex hx = true) (hhe : hx ≠ []) (n : Nat) :
    findMarker (s ++ ' ' :: markerStr hx n)
      = some ⟨s ++ [' '], hx, natDigits n, []⟩ := by
  induction s with
  | nil =>
    rw [List.nil_append]
    have hma : matchMarkerAt (' ' :: markerStr hx n) = none :=
      matchMarkerAt_cons_ne (by decide) _
    have hfm : findMarker (markerStr hx n) = some ⟨[], hx, natDigits n, []⟩ := by
      apply findMarker_of_matchMarkerAt
      have := matchMarkerAt_markerStr hh hhe n []
      rwa [List.append_nil] at this
    rw [show findMarker (' ' :: markerStr hx n)
        = match matchMarkerAt (' ' :: markerStr hx n) with
          | some (h, d, rest) => some ⟨[], h, d, rest⟩
          | none => (findMarker (markerStr hx n)).map
              fun m => { m with before := ' ' :: m.before } from rfl,
      hma, hfm]
    rfl
  | cons c cs ih =>
    obtain ⟨hm, hrest⟩ := findMarker_cons_none hf
    have hmark : ' ' :: markerStr hx n
        = ' ' :: '<' ::
          ("!-- ac:".data ++ hx ++ ':' :: natDigits n ++ " -->".data) := by
      simp [markerStr]
    have hext : matchMarkerAt (c :: (cs ++ ' ' :: markerStr hx n)) = none := by
      rw [← List.cons_append, hmark]
      exact matchMarkerAt_ext hm _
    rw [List.cons_append]
    rw [show findMarker (c :: (cs ++ ' ' :: markerStr hx n))
        = match matchMarkerAt (c :: (cs ++ ' ' :: markerStr hx n)) with
          | some (h, d, rest) => some ⟨[], h, d, rest⟩
          | none => (findMarker (cs ++ ' ' :: markerStr hx n)).map
              fun m => { m with before := c :: m.before } from rfl,
      hext, ih hrest]
    rfl

/-- `findMarker` fails on marker-free text, so stripping is the identity. -/
theorem replaceMarker_no_marker {s : Str} (hf : findMarker s = none) :
    replaceMarker s = s := by
  rw [replaceMarker, hf]

/-- Stripping the marker from marker-free text plus an appended marker leaves
the text plus the separating space. -/
theorem replaceMarker_append_marker {s hx : Str} (hf : findMarker s = none)
    (hh : allHex hx = true) (hhe : hx ≠ []) (n : Nat) :
    replaceMarker (s ++ ' ' :: markerStr hx n) = s ++ [' '] := by
  rw [replaceMarker, findMarker_append_marker hf hh hhe n]
  simp

theorem stripCr_append (a b : Str) :
    stripCr (a ++ b) = stripCr a ++ stripCr b := by
  simp [stripCr, List.filter_append]

theorem stripCr_no_cr {s : Str} (h : '\r' ∉ s) : stripCr s = s := by
  rw [stripCr]
  apply List.filter_eq_self.mpr
  intro c hc
  have hne : c ≠ '\r' := fun he => h (he ▸ hc)
  simp [hne]

theorem not_cr_mem_stripCr (x : Str) : '\r' ∉ stripCr x := by
  intro h
  have := List.of_mem_filter h
  simp at this

theorem mem_trim_sub {c : Char} {s : Str} (h : c ∈ trim s) : c ∈ s := by
  rw [trim, trimR, trimL] at h
  rw [List.mem_reverse] at h
  have h1 := (List.dropWhile_sublist jsWs).subset h
  rw [List.mem_reverse] at h1
  exact (List.dropWhile_sublist jsWs).subset h1

theorem trim_head_shape (s : Str) :
    trim s = [] ∨ ∃ c t, trim s = c :: t ∧ jsWs c = false := by
  rw [trim]
  cases hL : trimL s with
  | nil => exact Or.inl rfl
  | cons c t =>
    have hc : jsWs c = false := by
      rw [trimL] at hL
      exact dropWhile_cons_head hL
    obtain ⟨t', ht'⟩ := trimR_cons_exists hc t
    exact Or.inr ⟨c, t', ht', hc⟩

theorem trim_last_shape (s : Str) :
    trim s = [] ∨ ∃ m b, trim s = m ++ [b] ∧ jsWs b = false := by
  rw [trim, trimR]
  cases hd : (trimL s).reverse.dropWhile jsWs with
  | nil => exact Or.inl rfl
  | cons y r =>
    exact Or.inr ⟨r.reverse, y, by simp, dropWhile_cons_head hd⟩

theorem trim_trim (s : Str) : trim (trim s) = trim s := by
  rcases trim_head_shape s with h0 | ⟨c, t, hct, hc⟩
  · rw [h0]
    rfl
  · rcases trim_last_shape s with h0 | ⟨m, b, hmb, hb⟩
    · rw [h0]
      rfl
    · cases m with
      | nil =>
        rw [hmb]
        exact trim_single hb
      | cons c' m' =>
        have heq := hct.symm.trans hmb
        rw [List.cons_append] at heq
        injection heq with h1 _
        rw [hmb, List.cons_append]
        exact trim_of_ends (h1 ▸ hc) hb m'

theorem hexDigit_hexChar (n : Nat) : hexDigit (hexChar n) = true := by
  rw [hexChar]
  rcases Nat.lt_or_ge n 16 with h | h
  · interval_cases n <;> decide
  · rw [List.getD_eq_default]
    · decide
    · rw [show ("0123456789abcdef".data.length) = 16 from rfl]
      exact h

theorem allHex_md5Hex (s : Str) : allHex (md5Hex s) = true := by
  apply List.all_eq_true.mpr
  intro c hc
  rw [md5Hex] at hc
  rw [List.mem_flatten] at hc
  obtain ⟨l, hl, hcl⟩ := hc
  rw [List.mem_map] at hl
  obtain ⟨b, _, hb⟩ := hl
  subst hb
  rcases hcl with _ | ⟨_, hcl⟩
  · exact hexDigit_hexChar _
  · rcases hcl with _ | ⟨_, hcl⟩
    · exact hexDigit_hexChar _
    · cases hcl

theorem leBytes4_cons (n : Nat) :
    leBytes4 n = (n >>> (8 * 0)) % 256 :: [(n >>> (8 * 1)) % 256,
      (n >>> (8 * 2)) % 256, (n >>> (8 * 3)) % 256] := rfl

theorem md5Hex_ne_nil (s : Str) : md5Hex s ≠ [] := by
  rw [md5Hex, md5Digest]
  rcases hfold : (chunks64 (md5Pad (utf8Bytes s))).foldl md5Chunk
      (0x67452301, 0xefcdab89, 0x98badcfe, 0x10325476) with ⟨a, b, c, d⟩
  simp [leBytes4_cons, byteHex]

theorem computeEntryHash_allHex (t : Str) :
    allHex (computeEntryHash t) = true := by
  apply List.all_eq_true.mpr
  intro c hc
  rw [computeEntryHash] at hc
  exact List.all_eq_true.mp
    (allHex_md5Hex (trim (stripCr (replaceMarker t)))) c
    (List.mem_of_mem_take hc)

theorem computeEntryHash_ne_nil (t : Str) : computeEntryHash t ≠ [] := by
  rw [computeEntryHash]
  intro h
  rcases List.take_eq_nil_iff.mp h with h8 | hnil
  · cases h8
  · exact md5Hex_ne_nil _ hnil

theorem computeEntryHash_append_marker {text hx : Str}
    (hf : findMarker text = none) (hh : allHex hx = true) (hhe : hx ≠ [])
    (n : Nat) :
    computeEntryHash (text ++ ' ' :: markerStr hx n)
      = computeEntryHash text := by
  rw [computeEntryHash, computeEntryHash,
    replaceMarker_append_marker hf hh hhe n, replaceMarker_no_marker hf,
    stripCr_append, show stripCr [' '] = [' '] from rfl,
    trim_append_ws (by decide)]

/-- C8: appending a tracking marker (after a separating space) to text that
itself contains no marker leaves `computeEntryHash` unchanged: the hasher
strips the appended marker and trims away the separating space before
hashing. -/
theorem computeEntryHash_marker_invariant {text hx : Str}
    (hf : findMarker text = none) (hh : allHex hx = true) (hhe : hx ≠ [])
    (n : Nat) :
    computeEntryHash (text ++ ' ' :: markerStr hx n)
      = computeEntryHash text :=
  computeEntryHash_append_marker hf hh hhe n

set_option maxRecDepth 100000 in
theorem computeEntryHash_marker_invariant_witness :
    computeEntryHash ("- add login ([#7](u))".data ++ ' ' ::
        markerStr "abcd1234".data 7)
      = computeEntryHash "- add login ([#7](u))".data :=
  computeEntryHash_marker_invariant (by decide) (by decide) (by decide) 7

/-- C9 (amended): `buildMarkedEntry` is idempotent on every input whose
stripped core (first marker removed, CRs dropped, trimmed) contains no
further marker — in particular on every marker-free input and every output
of `buildMarkedEntry` on such input; with two embedded markers idempotence
fails (`buildMarkedEntry_twice_differs`). -/
theorem buildMarkedEntry_idempotent_stripped {t : Str} (n : Nat)
    (hf : findMarker (trim (stripCr (replaceMarker t))) = none) :
    buildMarkedEntry (buildMarkedEntry t n) n = buildMarkedEntry t n := by
  have hh := computeEntryHash_allHex (trim (stripCr (replaceMarker t)))
  have hhe := computeEntryHash_ne_nil (trim (stripCr (replaceMarker t)))
  have h2 : replaceMarker (trim (stripCr (replaceMarker t)) ++ ' ' ::
      markerStr (computeEntryHash (trim (stripCr (replaceMarker t)))) n)
        = trim (stripCr (replaceMarker t)) ++ [' '] :=
    replaceMarker_append_marker hf hh hhe n
  have h3 : stripCr (trim (stripCr (replaceMarker t)) ++ [' '])
      = trim (stripCr (replaceMarker t)) ++ [' '] := by
    rw [stripCr_append,
      stripCr_no_cr (fun hm => not_cr_mem_stripCr _ (mem_trim_sub hm))]
    rfl
  have h4 : trim (trim (stripCr (replaceMarker t)) ++ [' '])
      = trim (stripCr (replaceMarker t)) := by
    rw [trim_append_ws (by decide)]
    exact trim_trim _
  simp only [buildMarkedEntry]
  rw [h2, h3, h4]

set_option maxRecDepth 100000 in
theorem buildMarkedEntry_idempotent_stripped_witness :
    buildMarkedEntry (buildMarkedEntry "- add login ([#7](u))".data 7) 7
      = buildMarkedEntry "- add login ([#7](u))".data 7 :=
  buildMarkedEntry_idempotent_stripped 7 (by decide)

theorem findMarker_cons_of_ne {c : Char} (hc : c ≠ '<') {s : Str}
    (hf : findMarker s = none) : findMarker (c :: s) = none := by
  rw [show findMarker (c :: s)
      = (match matchMarkerAt (c :: s) with
        | some (h, d, rest) => some ⟨[], h, d, rest⟩
        | none =>
          (findMarker s).map fun m => { m with before := c :: m.before })
      from rfl,
    matchMarkerAt_cons_ne hc, hf]
  rfl

/-- Occurrences of a pattern starting with a newline, in a string whose only
early newline is explicit, happen at that newline or later. -/
theorem occursIn_nl_pat_append {qs A : Str} (B : Str) (hA : '\n' ∉ A) :
    occursIn ('\n' :: qs) (A ++ '\n' :: B)
      = (startsWith B qs || occursIn ('\n' :: qs) B) := by
  induction A with
  | nil =>
    rw [List.nil_append, occursIn_cons, startsWith_cons]
    simp
  | cons a A' ih =>
    have ha : a ≠ '\n' := fun he => hA (he ▸ List.mem_cons_self a A')
    rw [List.cons_append, occursIn_cons, startsWith_cons,
      ih (fun hm => hA (List.mem_cons_of_mem _ hm))]
    simp [ha]

theorem nl_notMem_markerStr {h : Str} (hh : allHex h = true) (P : Nat) :
    '\n' ∉ markerStr h P := by
  intro hm
  rw [markerStr, List.mem_append] at hm
  rcases hm with hm | hm
  · rw [List.mem_append] at hm
    rcases hm with hm | hm
    · rw [List.mem_append] at hm
      rcases hm with hm | hm
      · exact absurd hm (by decide)
      · have := List.all_eq_true.mp hh '\n' hm
        simp [hexDigit] at this
    · rcases List.mem_cons.mp hm with hm | hm
      · exact absurd hm (by decide)
      · exact natDigits_notMem (by decide) hm
  · exact absurd hm (by decide)

theorem nl_notMem_marked_line {core h : Str} (hc : '\n' ∉ core)
    (hh : allHex h = true) (P : Nat) :
    '\n' ∉ "- ".data ++ core ++ ' ' :: markerStr h P := by
  intro hm
  rw [List.mem_append] at hm
  rcases hm with hm | hm
  · rw [List.mem_append] at hm
    rcases hm with hm | hm
    · exact absurd hm (by decide)
    · exact hc hm
  · rcases List.mem_cons.mp hm with hm | hm
    · exact absurd hm (by decide)
    · exact nl_notMem_markerStr hh P hm

theorem firstIdx?_of_startsWith {pat s : Str} (hp : pat ≠ [])
    (h : startsWith s pat = true) : firstIdx? pat s = some 0 := by
  cases s with
  | nil =>
    cases pat with
    | nil => exact absurd rfl hp
    | cons q qs =>
      rw [show startsWith [] (q :: qs) = false from rfl] at h
      cases h
  | cons c cs => simp [firstIdx?, h]

theorem markerStr_snoc (h : Str) (n : Nat) :
    markerStr h n
      = ("<!-- ac:".data ++ h ++ ':' :: natDigits n ++ " --".data)
          ++ ['>'] := by
  simp [markerStr]

theorem trim_marked_line (core h : Str) (P : Nat) :
    trim ("- ".data ++ core ++ ' ' :: markerStr h P)
      = "- ".data ++ core ++ ' ' :: markerStr h P := by
  have hsh : "- ".data ++ core ++ ' ' :: markerStr h P
      = '-' :: ((' ' :: core ++ ' ' ::
          ("<!-- ac:".data ++ h ++ ':' :: natDigits P ++ " --".data))
            ++ ['>']) := by
    rw [markerStr_snoc]
    simp
  rw [hsh]
  exact trim_of_ends (by decide) (by decide) _

/-- What the detector's line loop does on a correctly marked entry line for
the probed PR: it compares the recomputed hash of the dash-stripped line
against the stored hash and answers untouched or edited accordingly. -/
theorem detectLoop_marked_line (P : Nat) {core h : Str} (rest : List Str)
    (hcore : findMarker core = none) (hh : allHex h = true) (hhe : h ≠ []) :
    detectLoop P (("- ".data ++ core ++ ' ' :: markerStr h P) :: rest)
      = if computeEntryHash (core ++ ' ' :: markerStr h P) == h
        then ⟨.AUTO_UNTOUCHED,
          some ("- ".data ++ core ++ ' ' :: markerStr h P), some h⟩
        else ⟨.AUTO_EDITED,
          some ("- ".data ++ core ++ ' ' :: markerStr h P), some h⟩ := by
  have htr := trim_marked_line core h P
  have hsw : startsWith ("- ".data ++ core ++ ' ' :: markerStr h P)
      "- ".data = true :=
    startsWith_iff.mpr ⟨core ++ ' ' :: markerStr h P, rfl⟩
  have hfm : findMarker ("- ".data ++ core ++ ' ' :: markerStr h P)
      = some ⟨("- ".data ++ core) ++ [' '], h, natDigits P, []⟩ := by
    have hf2 : findMarker ("- ".data ++ core) = none :=
      findMarker_cons_of_ne (by decide)
        (findMarker_cons_of_ne (by decide) hcore)
    exact findMarker_append_marker hf2 hh hhe P
  have hdash : jsStripDash ("- ".data ++ core ++ ' ' :: markerStr h P)
      = core ++ ' ' :: markerStr h P := by
    rw [jsStripDash, if_pos hsw]
    rfl
  simp only [detectLoop, htr, hsw, hfm, hdash, Bool.not_true,
    Bool.false_and, Bool.and_false, beq_self_eq_true, if_true, if_false,
    Bool.false_eq_true]

/-- On the minimal document `## [Unreleased]\n` + one entry line + `\n`, the
detector scans exactly the heading line, the entry line, and a blank. -/
theorem detectEntryState_min_doc (P : Nat) {line : Str}
    (hnl : '\n' ∉ line) (hd : startsWith line "- ".data = true) :
    detectEntryState (unrHeading ++ '\n' :: (line ++ ['\n'])) P
      = detectLoop P [unrHeading, line, []] := by
  obtain ⟨t, hline⟩ := startsWith_iff.mp hd
  have hocc : occursIn "\n## ".data
      ((unrHeading ++ '\n' :: (line ++ ['\n'])).drop 1) = false := by
    rw [show (unrHeading ++ '\n' :: (line ++ ['\n'])).drop 1
        = "# [Unreleased]".data ++ '\n' :: (line ++ ['\n']) from rfl,
      show ("\n## ".data : Str) = '\n' :: "## ".data from rfl,
      occursIn_nl_pat_append _ (by decide : '\n' ∉ "# [Unreleased]".data)]
    have h1 : startsWith (line ++ ['\n']) "## ".data = false := by
      rw [hline]
      rfl
    have h2 : occursIn ('\n' :: "## ".data) (line ++ ['\n']) = false := by
      rw [occursIn_nl_pat_append _ hnl]
      rfl
    rw [h1, h2]
    rfl
  have hidx : firstIdx? unrHeading (unrHeading ++ '\n' :: (line ++ ['\n']))
      = some 0 :=
    firstIdx?_of_startsWith (by decide)
      (startsWith_iff.mpr ⟨'\n' :: (line ++ ['\n']), rfl⟩)
  have hnext : idxFrom? "\n## ".data
      (unrHeading ++ '\n' :: (line ++ ['\n'])) 1 = none := by
    rw [idxFrom?, firstIdx?_none_iff.mpr hocc]
    rfl
  have hempty : (unrHeading ++ '\n' :: (line ++ ['\n'])).isEmpty = false := rfl
  have hsplit : splitNl (unrHeading ++ '\n' :: (line ++ ['\n']))
      = [unrHeading, line, []] := by
    rw [splitNl_append_nl (by decide), splitNl_append_nl hnl]
    rfl
  rw [detectEntryState]
  simp only [hempty, hidx, hnext, Bool.false_eq_true, if_false,
    Option.getD_none, Nat.zero_add, List.take_length, List.drop_zero, hsplit]

/-- Detecting a marked line on the minimal document: the stored hash wins or
loses against the recomputed one. -/
theorem detect_marked_min_doc (P : Nat) {core h : Str}
    (hc : findMarker core = none) (hcn : '\n' ∉ core)
    (hh : allHex h = true) (hhe : h ≠ []) :
    (detectEntryState (unrHeading ++ '\n' ::
        (("- ".data ++ core ++ ' ' :: markerStr h P) ++ ['\n'])) P).state
      = (if computeEntryHash (core ++ ' ' :: markerStr h P) == h
         then EntryState.AUTO_UNTOUCHED else EntryState.AUTO_EDITED) := by
  rw [detectEntryState_min_doc P (nl_notMem_marked_line hcn hh P)
      (startsWith_iff.mpr ⟨core ++ ' ' :: markerStr h P, rfl⟩),
    show detectLoop P [unrHeading,
        "- ".data ++ core ++ ' ' :: markerStr h P, []]
      = detectLoop P (("- ".data ++ core ++ ' ' :: markerStr h P) :: [[]])
      from rfl,
    detectLoop_marked_line P [[]] hc hh hhe]
  by_cases hb : computeEntryHash (core ++ ' ' :: markerStr h P) == h
  · rw [if_pos hb, if_pos hb]
  · rw [if_neg hb, if_neg hb]

/-- C7 (amended): inside the Unreleased section, a line built by
`buildMarkedEntry` for PR `P` is classified `AUTO_UNTOUCHED` when untouched;
mutating only its visible text (marker intact) yields `AUTO_EDITED`
precisely when the recomputed 8-hex-character truncated hash differs from
the stored one — with a truncated-hash collision the edit goes undetected
(`detect_collision_not_edited`). -/
theorem detectEntryState_edit_detection {txt edited : Str} (P : Nat)
    (hf : findMarker (trim (stripCr (replaceMarker txt))) = none)
    (hnl : '\n' ∉ trim (stripCr (replaceMarker txt)))
    (hfe : findMarker edited = none) (hne : '\n' ∉ edited)
    (hdiff : computeEntryHash edited
      ≠ computeEntryHash (trim (stripCr (replaceMarker txt)))) :
    (detectEntryState (unrHeading ++ '\n' ::
        (("- ".data ++ buildMarkedEntry txt P) ++ ['\n'])) P).state
      = .AUTO_UNTOUCHED
    ∧
    (detectEntryState (unrHeading ++ '\n' ::
        (("- ".data ++ (edited ++ ' ' ::
            markerStr (computeEntryHash (trim (stripCr (replaceMarker txt))))
              P)) ++ ['\n'])) P).state
      = .AUTO_EDITED := by
  have hh := computeEntryHash_allHex (trim (stripCr (replaceMarker txt)))
  have hhe := computeEntryHash_ne_nil (trim (stripCr (replaceMarker txt)))
  constructor
  · rw [show ("- ".data ++ buildMarkedEntry txt P)
        = "- ".data ++ trim (stripCr (replaceMarker txt)) ++ ' ' ::
          markerStr (computeEntryHash (trim (stripCr (replaceMarker txt)))) P
        by simp only [buildMarkedEntry, List.append_assoc],
      detect_marked_min_doc P hf hnl hh hhe, if_pos]
    rw [beq_iff_eq]
    exact computeEntryHash_append_marker hf hh hhe P
  · rw [show ("- ".data ++ (edited ++ ' ' ::
        markerStr (computeEntryHash (trim (stripCr (replaceMarker txt)))) P))
        = "- ".data ++ edited ++ ' ' ::
          markerStr (computeEntryHash (trim (stripCr (replaceMarker txt)))) P
        by rw [List.append_assoc],
      detect_marked_min_doc P hfe hne hh hhe, if_neg]
    rw [beq_iff_eq, computeEntryHash_append_marker hfe hh hhe P]
    exact hdiff

set_option maxRecDepth 1000000 in
theorem detectEntryState_edit_detection_witness :
    (detectEntryState (unrHeading ++ '\n' ::
        (("- ".data ++ buildMarkedEntry "add login ([#7](u))".data 7)
          ++ ['\n'])) 7).state
      = .AUTO_UNTOUCHED
    ∧
    (detectEntryState (unrHeading ++ '\n' ::
        (("- ".data ++ ("add logout ([#7](u))".data ++ ' ' ::
            markerStr (computeEntryHash
              (trim (stripCr (replaceMarker "add login ([#7](u))".data))))
              7)) ++ ['\n'])) 7).state
      = .AUTO_EDITED :=
  detectEntryState_edit_detection 7 (by decide) (by decide) (by decide)
    (by decide) (by decide)

theorem occursIn_append_left {pat a : Str} (h : occursIn pat a = true)
    (b : Str) : occursIn pat (a ++ b) = true := by
  obtain ⟨x, y, hxy⟩ := occursIn_iff.mp h
  refine occursIn_iff.mpr ⟨x, y ++ b, ?_⟩
  rw [hxy]
  simp

theorem occursIn_of_occursIn_append {p q s : Str}
    (h : occursIn (p ++ q) s = true) : occursIn p s = true := by
  obtain ⟨x, y, hxy⟩ := occursIn_iff.mp h
  refine occursIn_iff.mpr ⟨x, q ++ y, ?_⟩
  rw [hxy]
  simp

theorem occursIn_head_cons_ne {c₁ : Char} {pr : Str} {c : Char} (h : c ≠ c₁)
    (cs : Str) : occursIn (c₁ :: pr) (c :: cs) = occursIn (c₁ :: pr) cs := by
  rw [occursIn_cons, startsWith_cons, beq_false_of_ne h]
  rfl

theorem occursIn_append_false_left_notMem {q : Char} {qs X Y : Str}
    (hq : q ∉ X) (hY : occursIn (q :: qs) Y = false) :
    occursIn (q :: qs) (X ++ Y) = false := by
  by_contra hcon
  rw [Bool.not_eq_false] at hcon
  rcases occursIn_append_or hcon with h1 | h1 | hstr
  · exact hq (occursIn_chars h1 q (List.mem_cons_self _ _))
  · rw [hY] at h1
    cases h1
  · obtain ⟨p₁, p₂, hp, h1, h2, ⟨x', hx⟩, -⟩ := hstr
    cases p₁ with
    | nil => exact h1 rfl
    | cons u p₁' =>
      rw [List.cons_append] at hp
      injection hp with hu _
      subst hu
      refine hq ?_
      rw [hx]
      exact List.mem_append_right x' (List.mem_cons_self _ _)

theorem digits_bracket_run {d₁ d₂ x : Str}
    (h1 : allDec d₁ = true) (h2 : allDec d₂ = true)
    (h : startsWith (d₂ ++ ']' :: x) (d₁ ++ [']']) = true) : d₁ = d₂ := by
  induction d₁ generalizing d₂ with
  | nil =>
    cases d₂ with
    | nil => rfl
    | cons b bs =>
      rw [List.nil_append, List.cons_append, startsWith_cons,
        Bool.and_eq_true, beq_iff_eq] at h
      have hb := List.all_eq_true.mp h2 b (List.mem_cons_self _ _)
      rw [h.1] at hb
      simp [decDigit] at hb
  | cons a as ih =>
    cases d₂ with
    | nil =>
      rw [List.nil_append, List.cons_append, startsWith_cons,
        Bool.and_eq_true, beq_iff_eq] at h
      have ha := List.all_eq_true.mp h1 a (List.mem_cons_self _ _)
      rw [← h.1] at ha
      simp [decDigit] at ha
    | cons b bs =>
      rw [List.cons_append, List.cons_append, startsWith_cons,
        Bool.and_eq_true, beq_iff_eq] at h
      obtain ⟨hab, hrest⟩ := h
      subst hab
      rw [ih (List.all_eq_true.mpr fun c hc =>
            List.all_eq_true.mp h1 c (List.mem_cons_of_mem _ hc))
          (List.all_eq_true.mpr fun c hc =>
            List.all_eq_true.mp h2 c (List.mem_cons_of_mem _ hc)) hrest]

theorem notMem_prPat {c : Char} (h1 : c ≠ '[') (h2 : c ≠ '#') (h3 : c ≠ ']')
    (h4 : c.toNat < 48 ∨ 57 < c.toNat) (n : Nat) :
    c ∉ ('[' :: '#' :: (natDigits n ++ [']'])) := by
  intro hm
  rcases List.mem_cons.mp hm with hm | hm
  · exact h1 hm
  rcases List.mem_cons.mp hm with hm | hm
  · exact h2 hm
  rcases List.mem_append.mp hm with hm | hm
  · exact natDigits_notMem h4 hm
  · exact h3 (List.mem_singleton.mp hm)

theorem scopeText_shape (sc : Option Str) :
    scopeText sc = [] ∨ ∃ z, scopeText sc = z ++ [' '] := by
  cases sc with
  | none => exact Or.inl rfl
  | some s =>
    refine Or.inr ⟨"**".data ++ s ++ "**:".data, ?_⟩
    simp [scopeText]

theorem renderEntryText_shape (e : Entry) :
    renderEntryText e
      = (scopeText e.scope ++ e.description) ++ ' ' ::
          ('(' :: '[' :: '#' :: (natDigits e.prNumber ++
            (']' :: '(' :: (e.prUrl ++ ')' :: [')'])))) := by
  rw [renderEntryText]
  simp only [List.append_assoc]
  rfl

/-- The key cross-PR fact: the PR-link pattern of PR `n` does not occur in
the text rendered for an entry of a different PR whose scope text,
description and URL are all free of the substring `[#`. -/
theorem prPat_not_in_rendered {e : Entry} {n : Nat} (hnm : n ≠ e.prNumber)
    (hsc : occursIn "[#".data (scopeText e.scope) = false)
    (hdesc : occursIn "[#".data e.description = false)
    (hurl : occursIn "[#".data e.prUrl = false) :
    occursIn ("[#".data ++ natDigits n ++ "]".data) (renderEntryText e)
      = false := by
  have hkill : ∀ s : Str, occursIn "[#".data s = false →
      occursIn ('[' :: '#' :: (natDigits n ++ [']'])) s = false := by
    intro s hs
    by_contra hcon
    rw [Bool.not_eq_false] at hcon
    have h2 : occursIn "[#".data s = true :=
      occursIn_of_occursIn_append (q := natDigits n ++ [']']) hcon
    rw [hs] at h2
    cases h2
  have hsp : (' ' : Char) ∉ ('[' :: '#' :: (natDigits n ++ [']'])) :=
    notMem_prPat (by decide) (by decide) (by decide) (by decide) n
  have hrp : (')' : Char) ∉ ('[' :: '#' :: (natDigits n ++ [']'])) :=
    notMem_prPat (by decide) (by decide) (by decide) (by decide) n
  rw [renderEntryText_shape, show ("[#".data ++ natDigits n ++ "]".data : Str)
      = '[' :: '#' :: (natDigits n ++ [']']) from rfl,
    occursIn_append_sep hsp (by simp)]
  have hA : occursIn ('[' :: '#' :: (natDigits n ++ [']']))
      (scopeText e.scope ++ e.description) = false := by
    rcases scopeText_shape e.scope with hz | ⟨z, hz⟩
    · rw [hz, List.nil_append]
      exact hkill _ hdesc
    · have hzf : occursIn "[#".data z = false := by
        by_contra hcz
        rw [Bool.not_eq_false] at hcz
        have h3 := occursIn_append_left hcz [' ']
        rw [← hz, hsc] at h3
        cases h3
      rw [hz, List.append_assoc,
        show ([' '] ++ e.description : Str) = ' ' :: e.description from rfl,
        occursIn_append_sep hsp (by simp), hkill _ hzf, hkill _ hdesc]
      rfl
  have hB : occursIn ('[' :: '#' :: (natDigits n ++ [']']))
      ('(' :: '[' :: '#' :: (natDigits e.prNumber ++
        (']' :: '(' :: (e.prUrl ++ ')' :: [')'])))) = false := by
    rw [occursIn_head_cons_ne (by decide), occursIn_cons,
      Bool.or_eq_false_iff]
    constructor
    · rw [startsWith_cons, startsWith_cons]
      simp only [beq_self_eq_true, Bool.true_and]
      by_contra hsw
      rw [Bool.not_eq_false] at hsw
      exact hnm (natDigits_inj
        (digits_bracket_run (natDigits_allDec n)
          (natDigits_allDec e.prNumber) hsw))
    · rw [occursIn_head_cons_ne (by decide)]
      refine occursIn_append_false_left_notMem
        (natDigits_notMem (by decide)) ?_
      rw [occursIn_head_cons_ne (by decide),
        occursIn_head_cons_ne (by decide),
        occursIn_append_sep hrp (by simp), hkill _ hurl,
        show occursIn ('[' :: '#' :: (natDigits n ++ [']'])) [')'] = false
          from rfl]
      rfl
  rw [hA, hB]
  rfl

theorem char_notMem_rendered {c : Char} {e : Entry}
    (hS : c ∉ scopeText e.scope) (hD : c ∉ e.description)
    (hU : c ∉ e.prUrl) (hA : c ∉ " ([#".data) (hB : c ∉ "](".data)
    (hC : c ∉ "))".data) (hdig : c.toNat < 48 ∨ 57 < c.toNat) :
    c ∉ renderEntryText e := by
  intro hm
  rw [renderEntryText] at hm
  rcases List.mem_append.mp hm with hm | hm
  · rcases List.mem_append.mp hm with hm | hm
    · rcases List.mem_append.mp hm with hm | hm
      · rcases List.mem_append.mp hm with hm | hm
        · rcases List.mem_append.mp hm with hm | hm
          · rcases List.mem_append.mp hm with hm | hm
            · exact hS hm
            · exact hD hm
          · exact hA hm
        · exact natDigits_notMem hdig hm
      · exact hB hm
    · exact hU hm
  · exact hC hm

theorem char_notMem_unmarked_line {c : Char} {e : Entry}
    (hdash : c ∉ "- ".data) (hR : c ∉ renderEntryText e) :
    c ∉ renderLine false e := by
  intro hm
  rw [show renderLine false e = "- ".data ++ renderEntryText e from rfl] at hm
  rcases List.mem_append.mp hm with hm | hm
  · exact hdash hm
  · exact hR hm

theorem findMarker_none_of_no_lt {s : Str} (h : '<' ∉ s) :
    findMarker s = none := by
  induction s with
  | nil => rfl
  | cons c cs ih =>
    have hc : c ≠ '<' := fun he => h (by rw [← he]; exact List.mem_cons_self c cs)
    exact findMarker_cons_of_ne hc (ih fun hm => h (List.mem_cons_of_mem _ hm))

theorem trim_unmarked_line (e : Entry) :
    trim (renderLine false e) = renderLine false e := by
  have hliner : renderLine false e
      = '-' :: ((' ' :: ((scopeText e.scope ++ e.description) ++ ' ' ::
          ('(' :: '[' :: '#' :: (natDigits e.prNumber ++
            (']' :: '(' :: (e.prUrl ++ [')'])))))) ++ [')']) := by
    rw [show renderLine false e = "- ".data ++ renderEntryText e from rfl,
      renderEntryText_shape]
    simp only [List.cons_append, List.append_assoc]
    rfl
  rw [hliner]
  exact trim_of_ends (by decide) (by decide) _

/-- C10 (amended): a changelog line rendered for an entry of PR `m` whose
scope text, description and URL are free of the substring `[#` (and of
markup control characters `<` and newline) is never matched as belonging to
a different PR `n`: the line-match test fails, the detector reports `NONE`,
the editor's delete pass keeps the line, and the removal operation is a
no-op.  The scope-cleanliness condition is necessary: a `[#…]` reference
inside the rendered scope text defeats the bracket test
(`scope_ref_cross_match`). -/
theorem rendered_line_no_cross_pr_match {e : Entry} {n : Nat}
    (hnm : n ≠ e.prNumber)
    (hsc : occursIn "[#".data (scopeText e.scope) = false)
    (hdesc : occursIn "[#".data e.description = false)
    (hurl : occursIn "[#".data e.prUrl = false)
    (hltS : '<' ∉ scopeText e.scope) (hltD : '<' ∉ e.description)
    (hltU : '<' ∉ e.prUrl)
    (hnlS : '\n' ∉ scopeText e.scope) (hnlD : '\n' ∉ e.description)
    (hnlU : '\n' ∉ e.prUrl) :
    lineMatchesPr (renderLine false e) n = false ∧
    keepNonMatching n [renderLine false e] = ([renderLine false e], false) ∧
    (detectEntryState (unrHeading ++ '\n' ::
        (renderLine false e ++ ['\n'])) n).state = .NONE ∧
    removeAutoGeneratedEntriesText
        (some (unrHeading ++ '\n' :: (renderLine false e ++ ['\n']))) n
      = some (unrHeading ++ '\n' :: (renderLine false e ++ ['\n'])) := by
  have hocc_txt := prPat_not_in_rendered hnm hsc hdesc hurl
  have hfm_txt : findMarker (renderEntryText e) = none :=
    findMarker_none_of_no_lt
      (char_notMem_rendered hltS hltD hltU (by decide) (by decide)
        (by decide) (by decide))
  have htrim := trim_unmarked_line e
  have hsw_line : startsWith (renderLine false e) "- ".data = true :=
    startsWith_iff.mpr ⟨renderEntryText e, rfl⟩
  have hdash_drop : jsStripDash (renderLine false e) = renderEntryText e := by
    rw [jsStripDash, if_pos hsw_line]
    rfl
  have hlm : lineMatchesPr (renderLine false e) n = false := by
    simp only [lineMatchesPr, htrim, hsw_line, if_true, hdash_drop, hfm_txt,
      hocc_txt, Bool.or_self]
  have hfm_line : findMarker (renderLine false e) = none :=
    findMarker_none_of_no_lt
      (char_notMem_unmarked_line (by decide)
        (char_notMem_rendered hltS hltD hltU (by decide) (by decide)
          (by decide) (by decide)))
  have hocc_line : occursIn ("[#".data ++ natDigits n ++ "]".data)
      (renderLine false e) = false := by
    rw [show renderLine false e = "- ".data ++ renderEntryText e from rfl,
      show ("[#".data ++ natDigits n ++ "]".data : Str)
        = '[' :: '#' :: (natDigits n ++ [']']) from rfl]
    refine occursIn_append_false_left_notMem (by decide) ?_
    exact hocc_txt
  have hnl_line : '\n' ∉ renderLine false e :=
    char_notMem_unmarked_line (by decide)
      (char_notMem_rendered hnlS hnlD hnlU (by decide) (by decide)
        (by decide) (by decide))
  refine ⟨hlm, ?_, ?_, ?_⟩
  · simp only [keepNonMatching, hlm, Bool.false_eq_true, if_false]
  · rw [detectEntryState_min_doc n hnl_line hsw_line,
      show detectLoop n [unrHeading, renderLine false e, []]
        = detectLoop n (renderLine false e :: [[]]) from rfl]
    simp only [detectLoop, htrim, hsw_line, hocc_line, hfm_line,
      Bool.not_true, Bool.not_false, Bool.false_eq_true, if_false,
      Bool.and_self, if_true]
    rfl
  · have hsplit : splitNl (unrHeading ++ '\n' :: (renderLine false e ++ ['\n']))
        = [unrHeading, renderLine false e, []] := by
      rw [splitNl_append_nl (by decide), splitNl_append_nl hnl_line]
      rfl
    show (let r := (splitNl (unrHeading ++ '\n' ::
          (renderLine false e ++ ['\n']))).foldl _ ([], false);
        if r.2 then some (trim r.1)
        else some (unrHeading ++ '\n' :: (renderLine false e ++ ['\n']))) = _
    rw [hsplit, removal_fold_spec]
    simp only [List.any_cons, List.any_nil, hlm,
      show lineMatchesPr unrHeading n = false from rfl,
      show lineMatchesPr ([] : Str) n = false from rfl,
      Bool.or_self, Bool.or_false, Bool.false_or, Bool.false_eq_true,
      if_false]

theorem rendered_line_no_cross_pr_match_witness :
    lineMatchesPr
        (renderLine false
          ⟨"feat".data, none, "a".data, 1, "u".data, "Features".data⟩) 7
      = false ∧
    keepNonMatching 7
        [renderLine false
          ⟨"feat".data, none, "a".data, 1, "u".data, "Features".data⟩]
      = ([renderLine false
          ⟨"feat".data, none, "a".data, 1, "u".data, "Features".data⟩],
        false) ∧
    (detectEntryState (unrHeading ++ '\n' ::
        (renderLine false
            ⟨"feat".data, none, "a".data, 1, "u".data, "Features".data⟩
          ++ ['\n'])) 7).state = .NONE ∧
    removeAutoGeneratedEntriesText
        (some (unrHeading ++ '\n' ::
          (renderLine false
              ⟨"feat".data, none, "a".data, 1, "u".data, "Features".data⟩
            ++ ['\n']))) 7
      = some (unrHeading ++ '\n' ::
          (renderLine false
              ⟨"feat".data, none, "a".data, 1, "u".data, "Features".data⟩
            ++ ['\n'])) :=
  rendered_line_no_cross_pr_match (by decide) (by decide) (by decide)
    (by decide) (by decide) (by decide) (by decide) (by decide) (by decide)
    (by decide)

theorem startsWith_append_self (p t : Str) : startsWith (p ++ t) p = true :=
  startsWith_iff.mpr ⟨t, rfl⟩

theorem occursIn_nl_pat_cons (qs B : Str) :
    occursIn ('\n' :: qs) ('\n' :: B)
      = (startsWith B qs || occursIn ('\n' :: qs) B) := by
  rw [occursIn_cons, startsWith_cons]
  simp

theorem beq_false_of_length_ne {a b : Str} (h : a.length ≠ b.length) :
    (a == b) = false :=
  beq_eq_false_iff_ne.mpr fun he => h (he ▸ rfl)

theorem drop_append_plus (A : Str) (k : Nat) (B : Str) :
    (A ++ B).drop (A.length + k) = B.drop k := by
  induction A with
  | nil => simp
  | cons a A' ih =>
    rw [List.cons_append, List.length_cons,
      show A'.length + 1 + k = (A'.length + k) + 1 by omega,
      List.drop_succ_cons, ih]

/-- `indexOf` through a prefix in which the pattern provably never starts. -/
theorem firstIdx?_from {pat A B : Str}
    (h : ∀ A₁ A₂, A = A₁ ++ A₂ → A₂ ≠ [] → startsWith (A₂ ++ B) pat = false) :
    firstIdx? pat (A ++ B) = (firstIdx? pat B).map (· + A.length) := by
  induction A with
  | nil => simp
  | cons a A' ih =>
    have hsw : startsWith ((a :: A') ++ B) pat = false :=
      h [] (a :: A') rfl (by simp)
    rw [List.cons_append] at hsw
    rw [List.cons_append,
      show firstIdx? pat (a :: (A' ++ B))
        = if startsWith (a :: (A' ++ B)) pat then some 0
          else (firstIdx? pat (A' ++ B)).map (· + 1) from rfl,
      hsw, if_neg (by simp),
      ih (fun A₁ A₂ heq hne => h (a :: A₁) A₂ (by rw [heq]; rfl) hne)]
    cases firstIdx? pat B with
    | none => rfl
    | some i =>
      show some (i + A'.length + 1) = some (i + (A'.length + 1))
      rw [Nat.add_assoc]

theorem lineMatchesPr_hash_head (S : Str) (m : Nat) :
    lineMatchesPr ('#' :: S) m = false := by
  obtain ⟨t', ht⟩ := trim_cons_exists (show jsWs '#' = false by decide) S
  rw [show lineMatchesPr ('#' :: S) m
      = (if startsWith (trim ('#' :: S)) "- ".data then
          (occursIn ("[#".data ++ natDigits m ++ "]".data)
              (jsStripDash (trim ('#' :: S))) ||
            match findMarker (jsStripDash (trim ('#' :: S))) with
            | some mk => mk.digs == natDigits m
            | none => false)
        else false) from rfl,
    ht]
  rfl

theorem lineMatchesPr_trim_dash {l : Str} {m : Nat}
    (h : lineMatchesPr l m = true) :
    startsWith (trim l) "- ".data = true := by
  by_contra hsw
  rw [Bool.not_eq_true] at hsw
  rw [show lineMatchesPr l m
      = (if startsWith (trim l) "- ".data then
          (occursIn ("[#".data ++ natDigits m ++ "]".data)
              (jsStripDash (trim l)) ||
            match findMarker (jsStripDash (trim l)) with
            | some mk => mk.digs == natDigits m
            | none => false)
        else false) from rfl, hsw] at h
  simp at h

theorem startsWith_hash_false_of_matches {l : Str} {m : Nat}
    (h : lineMatchesPr l m = true) (Y X : Str) :
    startsWith (l ++ Y) ('#' :: X) = false := by
  have hd := lineMatchesPr_trim_dash h
  cases l with
  | nil =>
    rw [show trim ([] : Str) = [] from rfl] at hd
    exact absurd hd (by decide)
  | cons c t =>
    rw [List.cons_append, startsWith_cons]
    by_cases hws : jsWs c = true
    · have hc : c ≠ '#' := fun he => by
        rw [he] at hws
        exact absurd hws (by decide)
      rw [beq_false_of_ne hc]
      rfl
    · rw [Bool.not_eq_true] at hws
      obtain ⟨t', ht'⟩ := trim_cons_exists hws t
      rw [ht', startsWith_cons, Bool.and_eq_true, beq_iff_eq] at hd
      have hc : c ≠ '#' := fun he => by
        rw [hd.1] at he
        exact absurd he (by decide)
      rw [beq_false_of_ne hc]
      rfl

set_option maxRecDepth 10000 in
theorem template_split :
    CHANGELOG_TEMPLATE = TMPL_HDR ++ (unrHeading ++ "\n\n".data) := by
  decide

theorem hash_pat_not_in_prefix18 (S B : Str) :
    ∀ A₁ A₂, ("## [Unreleased]\n\n\n".data : Str) = A₁ ++ A₂ → A₂ ≠ [] →
      startsWith (A₂ ++ B) ("### ".data ++ S) = false := by
  intro A₁ A₂ heq hne
  have hsuf : A₂ <:+ "## [Unreleased]\n\n\n".data := ⟨A₁, heq.symm⟩
  have hmem := (List.mem_tails A₂ "## [Unreleased]\n\n\n".data).mpr hsuf
  simp only [show ("## [Unreleased]\n\n\n".data : Str)
      = ['#', '#', ' ', '[', 'U', 'n', 'r', 'e', 'l', 'e', 'a', 's', 'e',
         'd', ']', '\n', '\n', '\n'] from rfl,
    List.tails] at hmem
  fin_cases hmem <;> first | exact absurd rfl hne | rfl

theorem insertSection_create {e : Entry} (hSnl : '\n' ∉ e.sectionName) :
    insertSectionEntries true [e] "## [Unreleased]\n\n".data e.sectionName
      = unrBlock e.sectionName (renderLine true e) := by
  have hpne : ("### ".data ++ e.sectionName : Str) ≠ [] := by
    intro h
    rw [show ("### ".data ++ e.sectionName : Str)
        = '#' :: ("## ".data ++ e.sectionName) from rfl] at h
    cases h
  have hocc0 : occursIn ("### ".data ++ e.sectionName)
      "## [Unreleased]\n\n".data = false := by
    by_contra hc
    rw [Bool.not_eq_false] at hc
    have h2 := occursIn_of_occursIn_append hc
    rw [show occursIn "### ".data "## [Unreleased]\n\n".data = false
        from by decide] at h2
    cases h2
  have hfound0 : firstIdx? ("### ".data ++ e.sectionName)
      "## [Unreleased]\n\n".data = none := firstIdx?_none_iff.mpr hocc0
  have hsh : ("## [Unreleased]\n\n".data ++
        '\n' :: ("### ".data ++ e.sectionName) ++ "\n\n".data : Str)
      = "## [Unreleased]\n\n\n".data ++
          (("### ".data ++ e.sectionName) ++ "\n\n".data) := by
    simp only [List.append_assoc, List.cons_append]
    rfl
  have hfidx : firstIdx? ("### ".data ++ e.sectionName)
      ("## [Unreleased]\n\n\n".data ++
        (("### ".data ++ e.sectionName) ++ "\n\n".data)) = some 18 := by
    rw [firstIdx?_from (hash_pat_not_in_prefix18 e.sectionName _),
      firstIdx?_of_startsWith hpne (startsWith_append_self _ _)]
    rfl
  have hA19 : '\n' ∉ ("## ".data ++ e.sectionName : Str) := by
    intro hm
    rcases List.mem_append.mp hm with hm | hm
    · exact absurd hm (by decide)
    · exact hSnl hm
  have hocc19 : occursIn "\n### ".data
      (("## ".data ++ e.sectionName) ++ "\n\n".data) = false := by
    rw [show ("\n### ".data : Str) = '\n' :: "### ".data from rfl,
      show ("\n\n".data : Str) = '\n' :: ['\n'] from rfl,
      occursIn_nl_pat_append _ hA19]
    rfl
  have hsEnd : idxFrom? "\n### ".data
      ("## [Unreleased]\n\n\n".data ++
        (("### ".data ++ e.sectionName) ++ "\n\n".data)) 19 = none := by
    rw [idxFrom?,
      show (("## [Unreleased]\n\n\n".data ++
          (("### ".data ++ e.sectionName) ++ "\n\n".data)) : Str).drop 19
        = ("## ".data ++ e.sectionName) ++ "\n\n".data from rfl,
      firstIdx?_none_iff.mpr hocc19]
    rfl
  simp only [insertSectionEntries, hfound0, hsh, hfidx, Option.getD_some,
    show (18 + 1 : Nat) = 19 from rfl, hsEnd, Option.getD_none]
  rw [List.take_length, List.drop_length]
  simp only [List.filter_cons, beq_self_eq_true, if_true, List.filter_nil,
    List.map_cons, List.map_nil, List.isEmpty_cons, Bool.false_eq_true,
    if_false, joinNl, List.append_nil]
  simp only [unrBlock, List.append_assoc]
  rfl

set_option maxRecDepth 100000 in
theorem updateChangelogText_create {e : Entry} (hSnl : '\n' ∉ e.sectionName) :
    updateChangelogText none [e] true
      = (TMPL_HDR ++ unrBlock e.sectionName (renderLine true e), true) := by
  have hfound : firstIdx? unrHeading CHANGELOG_TEMPLATE = some 253 := by
    decide
  have hni : idxFrom? "\n## ".data CHANGELOG_TEMPLATE (253 + 1) = none := by
    decide
  have hun0 : CHANGELOG_TEMPLATE.drop 253 = "## [Unreleased]\n\n".data := by
    decide
  have htake : CHANGELOG_TEMPLATE.take 253 = TMPL_HDR := by decide
  have hsplit0 : splitNl "## [Unreleased]\n\n".data
      = ["## [Unreleased]".data, [], []] := by decide
  have hlmU : lineMatchesPr "## [Unreleased]".data e.prNumber = false := rfl
  have hlmE : lineMatchesPr ([] : Str) e.prNumber = false := rfl
  have hknm : keepNonMatching e.prNumber ["## [Unreleased]".data, [], []]
      = (["## [Unreleased]".data, [], []], false) := by
    simp only [keepNonMatching, hlmU, hlmE, Bool.false_eq_true, if_false]
  have hkeys : sectionKeys [e] = [e.sectionName] := rfl
  have hflag : (CHANGELOG_TEMPLATE ==
      TMPL_HDR ++ unrBlock e.sectionName (renderLine true e)) = false := by
    apply beq_false_of_length_ne
    rw [show CHANGELOG_TEMPLATE.length = 270 from by decide,
      List.length_append, show TMPL_HDR.length = 253 from by decide]
    simp only [unrBlock, List.length_append, List.length_cons,
      show unrHeading.length = 15 from rfl]
    omega
  simp only [updateChangelogText, hfound, hni, Option.getD_none,
    List.take_length, hun0, List.drop_length, hsplit0, hknm,
    Bool.false_eq_true, if_false, hkeys, List.foldl,
    insertSection_create hSnl, htake, List.append_nil, hflag,
    Bool.not_false]

theorem firstIdx_hdr_block (S B : Str) :
    firstIdx? ("### ".data ++ S)
      ("## [Unreleased]\n\n\n".data ++ (("### ".data ++ S) ++ B))
      = some 18 := by
  have hpne : ("### ".data ++ S : Str) ≠ [] := by
    intro h
    rw [show ("### ".data ++ S : Str)
        = '#' :: ("## ".data ++ S) from rfl] at h
    cases h
  rw [firstIdx?_from (hash_pat_not_in_prefix18 S _),
    firstIdx?_of_startsWith hpne (startsWith_append_self _ _)]
  rfl

theorem sEnd_scan {S : Str} (hSnl : '\n' ∉ S) :
    idxFrom? "\n### ".data
      ("## [Unreleased]\n\n\n".data ++
        (("### ".data ++ S) ++ "\n\n".data)) 19 = none := by
  have hA19 : '\n' ∉ ("## ".data ++ S : Str) := by
    intro hm
    rcases List.mem_append.mp hm with hm | hm
    · exact absurd hm (by decide)
    · exact hSnl hm
  have hocc19 : occursIn "\n### ".data
      (("## ".data ++ S) ++ "\n\n".data) = false := by
    rw [show ("\n### ".data : Str) = '\n' :: "### ".data from rfl,
      show ("\n\n".data : Str) = '\n' :: ['\n'] from rfl,
      occursIn_nl_pat_append _ hA19]
    rfl
  rw [idxFrom?,
    show (("## [Unreleased]\n\n\n".data ++
        (("### ".data ++ S) ++ "\n\n".data)) : Str).drop 19
      = ("## ".data ++ S) ++ "\n\n".data from rfl,
    firstIdx?_none_iff.mpr hocc19]
  rfl

/-- The per-section insert step on an Unreleased block whose section header
already exists and whose entry line has been deleted: the rendered line is
appended at the end of the section. -/
theorem insertSection_update {e : Entry} (hSnl : '\n' ∉ e.sectionName) :
    insertSectionEntries true [e]
      ("## [Unreleased]\n\n\n".data ++
        (("### ".data ++ e.sectionName) ++ "\n\n".data))
      e.sectionName
      = unrBlock e.sectionName (renderLine true e) := by
  simp only [insertSectionEntries, firstIdx_hdr_block e.sectionName,
    Option.getD_some, show (18 + 1 : Nat) = 19 from rfl,
    sEnd_scan hSnl, Option.getD_none]
  rw [List.take_length, List.drop_length]
  simp only [List.filter_cons, beq_self_eq_true, if_true, List.filter_nil,
    List.map_cons, List.map_nil, List.isEmpty_cons, Bool.false_eq_true,
    if_false, joinNl, List.append_nil]
  simp only [unrBlock, List.append_assoc]
  rfl

/-- The `"\n## "` next-section scan finds nothing after the Unreleased
heading of a canonical block. -/
theorem no_h2_after_heading {S l : Str} (hSnl : '\n' ∉ S) (hlnl : '\n' ∉ l)
    (hlsw : startsWith (l ++ ['\n']) "## ".data = false) :
    occursIn "\n## ".data ((unrBlock S l).drop 1) = false := by
  rw [show (unrBlock S l).drop 1
      = "# [Unreleased]".data ++ '\n' :: '\n' :: '\n' ::
          ("### ".data ++ (S ++ ('\n' :: '\n' :: (l ++ ['\n'])))) from rfl,
    show ("\n## ".data : Str) = '\n' :: "## ".data from rfl,
    occursIn_nl_pat_append _ (by decide : '\n' ∉ "# [Unreleased]".data),
    show startsWith ('\n' :: '\n' ::
        ("### ".data ++ (S ++ ('\n' :: '\n' :: (l ++ ['\n'])))))
        "## ".data = false from rfl,
    occursIn_nl_pat_cons,
    show startsWith ('\n' ::
        ("### ".data ++ (S ++ ('\n' :: '\n' :: (l ++ ['\n'])))))
        "## ".data = false from rfl,
    occursIn_nl_pat_cons,
    show startsWith ("### ".data ++ (S ++ ('\n' :: '\n' :: (l ++ ['\n']))))
        "## ".data = false from rfl,
    show ("### ".data ++ (S ++ ('\n' :: '\n' :: (l ++ ['\n']))) : Str)
      = ("### ".data ++ S) ++ ('\n' :: '\n' :: (l ++ ['\n']))
      from (List.append_assoc _ _ _).symm,
    occursIn_nl_pat_append _ (show '\n' ∉ ("### ".data ++ S : Str) from by
      intro hm
      rcases List.mem_append.mp hm with hm | hm
      · exact absurd hm (by decide)
      · exact hSnl hm),
    show startsWith ('\n' :: (l ++ ['\n'])) "## ".data = false from rfl,
    occursIn_nl_pat_cons, hlsw,
    occursIn_nl_pat_append _ hlnl]
  rfl

theorem splitNl_unrBlock {S l : Str} (hSnl : '\n' ∉ S) (hlnl : '\n' ∉ l) :
    splitNl (unrBlock S l)
      = [unrHeading, [], [], "### ".data ++ S, [], l, []] := by
  rw [unrBlock, splitNl_append_nl (by decide), splitNl_nl, splitNl_nl,
    show ("### ".data ++ (S ++ ('\n' :: '\n' :: (l ++ ['\n']))) : Str)
      = ("### ".data ++ S) ++ ('\n' :: '\n' :: (l ++ ['\n']))
      from (List.append_assoc _ _ _).symm,
    splitNl_append_nl (show '\n' ∉ ("### ".data ++ S : Str) from by
      intro hm
      rcases List.mem_append.mp hm with hm | hm
      · exact absurd hm (by decide)
      · exact hSnl hm),
    splitNl_nl, splitNl_append_nl hlnl]
  rfl

set_option maxRecDepth 100000 in
/-- The update step on a canonical document: one existing line for the PR is
deleted and the freshly rendered line is appended in its section. -/
theorem updateChangelogText_update {e : Entry} {l₁ : Str}
    (hSnl : '\n' ∉ e.sectionName) (hl1nl : '\n' ∉ l₁)
    (hl1m : lineMatchesPr l₁ e.prNumber = true) :
    updateChangelogText (some (TMPL_HDR ++ unrBlock e.sectionName l₁)) [e]
        true
      = (TMPL_HDR ++ unrBlock e.sectionName (renderLine true e),
        !((TMPL_HDR ++ unrBlock e.sectionName l₁) ==
          TMPL_HDR ++ unrBlock e.sectionName (renderLine true e))) := by
  have hD : TMPL_HDR ++ unrBlock e.sectionName l₁
      = (TMPL_HDR ++ unrHeading) ++ ('\n' :: '\n' :: '\n' ::
          ("### ".data ++ (e.sectionName ++ ('\n' :: '\n' ::
            (l₁ ++ ['\n']))))) := by
    rw [unrBlock, ← List.append_assoc]
  have hfound : firstIdx? unrHeading (TMPL_HDR ++ unrBlock e.sectionName l₁)
      = some 253 := by
    have hc : firstIdx? unrHeading (TMPL_HDR ++ unrHeading)
        = some 253 := by decide
    rw [hD, firstIdx?_append_left (by rw [hc]; rfl) _, hc]
  have hni : idxFrom? "\n## ".data (TMPL_HDR ++ unrBlock e.sectionName l₁)
      (253 + 1) = none := by
    rw [idxFrom?,
      show (253 + 1 : Nat) = TMPL_HDR.length + 1 from by decide,
      drop_append_plus,
      firstIdx?_none_iff.mpr
        (no_h2_after_heading hSnl hl1nl
          (startsWith_hash_false_of_matches hl1m ['\n'] _))]
    rfl
  have hdrop253 : (TMPL_HDR ++ unrBlock e.sectionName l₁).drop 253
      = unrBlock e.sectionName l₁ := by
    rw [show (253 : Nat) = TMPL_HDR.length + 0 from by decide,
      drop_append_plus]
    rfl
  have htake253 : (TMPL_HDR ++ unrBlock e.sectionName l₁).take 253
      = TMPL_HDR := by
    rw [show (253 : Nat) = TMPL_HDR.length from by decide, List.take_left]
  have hlmU : lineMatchesPr unrHeading e.prNumber = false := rfl
  have hlmE : lineMatchesPr ([] : Str) e.prNumber = false := rfl
  have hlm3 : lineMatchesPr ("### ".data ++ e.sectionName) e.prNumber
      = false := lineMatchesPr_hash_head _ _
  have hknm : keepNonMatching e.prNumber
      [unrHeading, [], [], "### ".data ++ e.sectionName, [], l₁, []]
      = ([unrHeading, [], [], "### ".data ++ e.sectionName, [], []],
        true) := by
    simp only [keepNonMatching, hlmU, hlmE, hlm3, hl1m,
      Bool.false_eq_true, if_false, if_true]
  have hjoin : joinNl [unrHeading, [], [], "### ".data ++ e.sectionName,
      [], []]
      = "## [Unreleased]\n\n\n".data ++
          (("### ".data ++ e.sectionName) ++ "\n\n".data) := by
    simp only [joinNl, List.nil_append]
    rfl
  have hkeys : sectionKeys [e] = [e.sectionName] := rfl
  simp only [updateChangelogText, hfound, hni, Option.getD_none,
    List.take_length, hdrop253, List.drop_length,
    splitNl_unrBlock hSnl hl1nl, hknm, if_true, hjoin, hkeys, List.foldl,
    insertSection_update hSnl, htake253, List.append_nil]

theorem nl_notMem_marked_renderLine {e : Entry}
    (hlt : '<' ∉ renderEntryText e) (hnlR : '\n' ∉ renderEntryText e) :
    '\n' ∉ renderLine true e := by
  intro hm
  rw [show renderLine true e
      = "- ".data ++ buildMarkedEntry (renderEntryText e) e.prNumber
      from rfl] at hm
  rcases List.mem_append.mp hm with hm | hm
  · exact absurd hm (by decide)
  · rw [show buildMarkedEntry (renderEntryText e) e.prNumber
        = trim (stripCr (replaceMarker (renderEntryText e))) ++ ' ' ::
            markerStr (computeEntryHash (trim (stripCr (replaceMarker
              (renderEntryText e))))) e.prNumber from rfl,
      replaceMarker_no_marker (findMarker_none_of_no_lt hlt)] at hm
    rcases List.mem_append.mp hm with hm | hm
    · exact hnlR (List.mem_of_mem_filter (mem_trim_sub hm))
    · rcases List.mem_cons.mp hm with hm | hm
      · exact absurd hm (by decide)
      · exact nl_notMem_markerStr (computeEntryHash_allHex _) _ hm

theorem trim_marked_renderLine (e : Entry) :
    trim (renderLine true e) = renderLine true e := by
  rw [show renderLine true e
      = "- ".data ++ (trim (stripCr (replaceMarker (renderEntryText e))) ++
          ' ' :: markerStr (computeEntryHash (trim (stripCr (replaceMarker
            (renderEntryText e))))) e.prNumber) from rfl,
    ← List.append_assoc]
  exact trim_marked_line _ _ _

theorem lineMatchesPr_marked_line {core h : Str} (P : Nat)
    (hcore : findMarker core = none) (hh : allHex h = true) (hhe : h ≠ []) :
    lineMatchesPr ("- ".data ++ core ++ ' ' :: markerStr h P) P = true := by
  have htr := trim_marked_line core h P
  have hsw : startsWith ("- ".data ++ core ++ ' ' :: markerStr h P)
      "- ".data = true :=
    startsWith_iff.mpr ⟨core ++ ' ' :: markerStr h P,
      List.append_assoc _ _ _⟩
  have hdrop : jsStripDash ("- ".data ++ core ++ ' ' :: markerStr h P)
      = core ++ ' ' :: markerStr h P := by
    rw [jsStripDash, if_pos hsw]
    rfl
  have hfm : findMarker (core ++ ' ' :: markerStr h P)
      = some ⟨core ++ [' '], h, natDigits P, []⟩ :=
    findMarker_append_marker hcore hh hhe P
  rw [show lineMatchesPr ("- ".data ++ core ++ ' ' :: markerStr h P) P
      = (if startsWith (trim ("- ".data ++ core ++ ' ' :: markerStr h P))
            "- ".data then
          (occursIn ("[#".data ++ natDigits P ++ "]".data)
              (jsStripDash (trim ("- ".data ++ core ++
                ' ' :: markerStr h P))) ||
            match findMarker (jsStripDash (trim ("- ".data ++ core ++
                ' ' :: markerStr h P))) with
            | some mk => mk.digs == natDigits P
            | none => false)
        else false) from rfl,
    htr, hsw, hdrop, hfm]
  simp

theorem lineMatchesPr_marked_self {e : Entry}
    (hlt : '<' ∉ renderEntryText e) :
    lineMatchesPr (renderLine true e) e.prNumber = true := by
  have hfm := findMarker_none_of_no_lt hlt
  have hltS : '<' ∉ trim (stripCr (renderEntryText e)) :=
    fun hm => hlt (List.mem_of_mem_filter (mem_trim_sub hm))
  have hfmS := findMarker_none_of_no_lt hltS
  rw [show renderLine true e
      = "- ".data ++ (trim (stripCr (replaceMarker (renderEntryText e))) ++
          ' ' :: markerStr (computeEntryHash (trim (stripCr (replaceMarker
            (renderEntryText e))))) e.prNumber) from rfl,
    ← List.append_assoc, replaceMarker_no_marker hfm]
  exact lineMatchesPr_marked_line e.prNumber hfmS
    (computeEntryHash_allHex _) (computeEntryHash_ne_nil _)

set_option maxRecDepth 100000 in
/-- C2 (amended): on documents the tool itself lays out — here, the file it
creates from its own template — applying `generate` for the same entry twice
in a row reproduces the first application's output byte for byte, and the
second application reports no change; idempotence does not extend to
arbitrary pre-existing documents (`updateChangelog_generate_twice_changes`:
a section header without a blank line before the next section breaks it). -/
theorem updateChangelog_generate_idempotent {e : Entry}
    (hSnl : '\n' ∉ e.sectionName) (hlt : '<' ∉ renderEntryText e)
    (hnlR : '\n' ∉ renderEntryText e) :
    updateChangelogText (some (updateChangelogText none [e] true).1) [e] true
      = ((updateChangelogText none [e] true).1, false) := by
  rw [updateChangelogText_create hSnl]
  rw [show ((TMPL_HDR ++ unrBlock e.sectionName (renderLine true e),
      true) : Str × Bool).1
      = TMPL_HDR ++ unrBlock e.sectionName (renderLine true e) from rfl,
    updateChangelogText_update hSnl
      (nl_notMem_marked_renderLine hlt hnlR)
      (lineMatchesPr_marked_self hlt),
    beq_self_eq_true]
  rfl

set_option maxRecDepth 100000 in
theorem updateChangelog_generate_idempotent_witness :
    updateChangelogText
        (some (updateChangelogText none [cxEntry5] true).1) [cxEntry5] true
      = ((updateChangelogText none [cxEntry5] true).1, false) :=
  updateChangelog_generate_idempotent (by decide) (by decide) (by decide)

set_option maxRecDepth 100000 in
/-- C3 (amended): one `updateChangelog` application for a PR on a canonical
document carrying any single line that references that PR leaves the
Unreleased slice with exactly one line referencing the PR: the old line is
deleted and exactly one freshly rendered line is appended.  On documents
with stray (non-entry-shaped) references the count can exceed one
(`updateChangelog_stray_ref_two_lines`). -/
theorem updateChangelog_unreleased_unique_pr_line {e : Entry} {l₁ : Str}
    (hSnl : '\n' ∉ e.sectionName) (hlt : '<' ∉ renderEntryText e)
    (hnlR : '\n' ∉ renderEntryText e)
    (hl1nl : '\n' ∉ l₁) (hl1m : lineMatchesPr l₁ e.prNumber = true) :
    (splitNl (unreleasedSlice
        ((updateChangelogText (some (TMPL_HDR ++ unrBlock e.sectionName l₁))
          [e] true).1))).countP
      (fun l => lineMatchesPr l e.prNumber) = 1 := by
  have hnl2 := nl_notMem_marked_renderLine hlt hnlR
  have hlm2 := lineMatchesPr_marked_self hlt
  rw [updateChangelogText_update hSnl hl1nl hl1m]
  rw [show ((TMPL_HDR ++ unrBlock e.sectionName (renderLine true e),
      !((TMPL_HDR ++ unrBlock e.sectionName l₁) ==
        TMPL_HDR ++ unrBlock e.sectionName (renderLine true e)))
        : Str × Bool).1
      = TMPL_HDR ++ unrBlock e.sectionName (renderLine true e) from rfl]
  have hfound : firstIdx? unrHeading
      (TMPL_HDR ++ unrBlock e.sectionName (renderLine true e))
      = some 253 := by
    have hc : firstIdx? unrHeading (TMPL_HDR ++ unrHeading)
        = some 253 := by decide
    rw [unrBlock, ← List.append_assoc, firstIdx?_append_left
      (by rw [hc]; rfl) _, hc]
  have hni : idxFrom? "\n## ".data
      (TMPL_HDR ++ unrBlock e.sectionName (renderLine true e))
      (253 + 1) = none := by
    rw [idxFrom?,
      show (253 + 1 : Nat) = TMPL_HDR.length + 1 from by decide,
      drop_append_plus,
      firstIdx?_none_iff.mpr
        (no_h2_after_heading hSnl hnl2
          (startsWith_hash_false_of_matches hlm2 ['\n'] _))]
    rfl
  have hdrop253 : (TMPL_HDR ++
      unrBlock e.sectionName (renderLine true e)).drop 253
      = unrBlock e.sectionName (renderLine true e) := by
    rw [show (253 : Nat) = TMPL_HDR.length + 0 from by decide,
      drop_append_plus]
    rfl
  simp only [unreleasedSlice, hfound, hni, Option.getD_none,
    List.take_length, hdrop253]
  rw [splitNl_unrBlock hSnl hnl2]
  have hlmHash : lineMatchesPr (['#', '#', '#', ' '] ++ e.sectionName)
      e.prNumber = false :=
    lineMatchesPr_hash_head ("## ".data ++ e.sectionName) e.prNumber
  simp only [List.countP_cons, List.countP_nil, hlm2,
    show lineMatchesPr unrHeading e.prNumber = false from rfl,
    show lineMatchesPr ([] : Str) e.prNumber = false from rfl, hlmHash]
  simp

set_option maxRecDepth 100000 in
theorem updateChangelog_unreleased_unique_pr_line_witness :
    (splitNl (unreleasedSlice
        ((updateChangelogText
          (some (TMPL_HDR ++ unrBlock "Features".data
            "- older text ([#5](v))".data))
          [cxEntry5] true).1))).countP
      (fun l => lineMatchesPr l cxEntry5.prNumber) = 1 :=
  updateChangelog_unreleased_unique_pr_line (by decide) (by decide)
    (by decide) (by decide) (by decide)

end PRAC

